import Mathlib

/-!
# Verification of the nand2tetris VM-to-Hack translator (`projects/08/vm.py`)

This file gives a shallow embedding of the VM translator and settles the
specification claims about it.  The embedding works at two levels:

* a *text level*, mirroring the string templates of `vm.py` line by line
  (each element of a `List String` is one line of the Python template), and
* an *instruction level*, mirroring the same templates as lists of Hack
  instructions, linked to the text level by a printing function.

The target machine itself (a 16-bit Hack-class architecture) is not part of
the repository's sources; its execution semantics and the symbol-resolution
step of the downstream assembler are modelled from the specification.
-/

namespace VM

/-! ## Decimal rendering of numbers

`vm.py` renders numbers with Python's `%d`.  We relate Lean's `Nat.repr`
(the exact decimal rendering used in our embedded templates) to a
structurally recursive digit function, in order to prove injectivity of
the generated label names. -/

/-- Decimal digit characters of `n`, most significant first.
Structural companion of core's fuelled `Nat.toDigitsCore`. -/
def decChars (n : Nat) : List Char :=
  if n < 10 then [Nat.digitChar n]
  else decChars (n / 10) ++ [Nat.digitChar (n % 10)]
  decreasing_by exact Nat.div_lt_self (by omega) (by omega)

theorem toDigitsCore_append (fuel : Nat) :
    ∀ (n : Nat) (ds : List Char),
      Nat.toDigitsCore 10 fuel n ds = Nat.toDigitsCore 10 fuel n [] ++ ds := by
  induction fuel with
  | zero => intro n ds; simp [Nat.toDigitsCore]
  | succ f ih =>
    intro n ds
    simp only [Nat.toDigitsCore]
    by_cases h : n / 10 = 0
    · simp [h]
    · simp only [if_neg h]
      rw [ih (n / 10) (Nat.digitChar (n % 10) :: ds),
        ih (n / 10) [Nat.digitChar (n % 10)]]
      simp

theorem toDigitsCore_eq_decChars (n : Nat) :
    ∀ fuel, n < fuel → Nat.toDigitsCore 10 fuel n [] = decChars n := by
  induction n using Nat.strong_induction_on with
  | _ n ih =>
    intro fuel hfuel
    match fuel, hfuel with
    | f + 1, hfuel =>
      simp only [Nat.toDigitsCore]
      by_cases h : n / 10 = 0
      · have hn : n < 10 := by omega
        rw [if_pos h, decChars, if_pos hn, Nat.mod_eq_of_lt hn]
      · have hn : ¬ n < 10 := by omega
        conv_rhs => rw [decChars]
        rw [if_neg h, toDigitsCore_append,
          ih (n / 10) (by omega) f (by omega), if_neg hn]

theorem repr_eq_decChars (n : Nat) : Nat.repr n = ⟨decChars n⟩ := by
  simp only [Nat.repr, Nat.toDigits, List.asString]
  rw [toDigitsCore_eq_decChars n (n + 1) (by omega)]

/-- Value of a decimal digit string (most significant first). -/
def decVal (cs : List Char) : Nat :=
  cs.foldl (fun a c => a * 10 + (c.toNat - 48)) 0

theorem decVal_append_foldl (cs : List Char) :
    ∀ a : Nat, cs.foldl (fun a c => a * 10 + (c.toNat - 48)) a =
      a * 10 ^ cs.length + decVal cs := by
  induction cs with
  | nil => intro a; simp [decVal]
  | cons c cs ih =>
    intro a
    simp only [List.foldl_cons, decVal, Nat.zero_mul, Nat.zero_add] at *
    rw [ih, ih (c.toNat - 48), List.length_cons]
    ring

theorem digitChar_toNat (d : Nat) (h : d < 10) :
    (Nat.digitChar d).toNat - 48 = d := by
  interval_cases d <;> rfl

theorem decVal_decChars (n : Nat) : decVal (decChars n) = n := by
  induction n using Nat.strong_induction_on with
  | _ n ih =>
    rw [decChars]
    by_cases h : n < 10
    · simp [if_pos h, decVal, digitChar_toNat n h]
    · rw [if_neg h, decVal, List.foldl_append, ← decVal, decVal_decChars_aux,
        ih (n / 10) (Nat.div_lt_self (by omega) (by omega))]
      simp [digitChar_toNat (n % 10) (Nat.mod_lt n (by omega))]
      omega
where
  decVal_decChars_aux : ∀ (m : Nat) (c : Char),
      List.foldl (fun a c => a * 10 + (c.toNat - 48)) m [c] =
        m * 10 + (c.toNat - 48) := by
    intro m c; simp

theorem decChars_injective : Function.Injective decChars := by
  intro a b h
  have := decVal_decChars a
  rw [h, decVal_decChars b] at this
  omega

theorem repr_injective : Function.Injective Nat.repr := by
  intro a b h
  rw [repr_eq_decChars, repr_eq_decChars] at h
  exact decChars_injective (by injection h)

theorem decChars_ne_nil (n : Nat) : decChars n ≠ [] := by
  rw [decChars]
  by_cases h : n < 10
  · simp [if_pos h]
  · simp [if_neg h]

theorem digitChar_isDigit (d : Nat) (h : d < 10) : (Nat.digitChar d).isDigit := by
  interval_cases d <;> rfl

theorem decChars_all_digits (n : Nat) : ∀ c ∈ decChars n, c.isDigit := by
  induction n using Nat.strong_induction_on with
  | _ n ih =>
    rw [decChars]
    by_cases h : n < 10
    · simp only [if_pos h, List.mem_singleton]
      rintro c rfl; exact digitChar_isDigit n h
    · simp only [if_neg h, List.mem_append, List.mem_singleton]
      rintro c (hc | rfl)
      · exact ih (n / 10) (Nat.div_lt_self (by omega) (by omega)) c hc
      · exact digitChar_isDigit (n % 10) (Nat.mod_lt n (by omega))

theorem repr_data (n : Nat) : (Nat.repr n).data = decChars n := by
  rw [repr_eq_decChars]

/-! ## The segment model (`vm.py` lines 77-211)

Each Python triple-quoted assembly template is embedded as a `List String`,
one list element per line of the template. -/

/-- The eight segments (`vm.py` lines 194-211). -/
inductive Seg
  | constant | static | localSeg | argument | thisSeg | thatSeg | pointer | temp
deriving DecidableEq, Repr

/-- `Segment.name` (`vm.py` lines 194-201). -/
def Seg.name : Seg → String
  | .constant => "constant" | .static => "static" | .localSeg => "local"
  | .argument => "argument" | .thisSeg => "this" | .thatSeg => "that"
  | .pointer => "pointer" | .temp => "temp"

/-- `Segment.symbol` of the base-pointer segments (`vm.py` lines 196-199). -/
def Seg.symbol : Seg → Option String
  | .localSeg => some "LCL" | .argument => some "ARG"
  | .thisSeg => some "THIS" | .thatSeg => some "THAT"
  | _ => none

/-- `FixedSegment.base` (`vm.py` lines 200-201). -/
def Seg.base : Seg → Nat
  | .pointer => 3 | .temp => 5 | _ => 0

/-- `FixedSegment.size` (`vm.py` lines 200-201). -/
def Seg.size : Seg → Nat
  | .pointer => 2 | .temp => 8 | _ => 0

/-- `Segment.PUSH_D` (`vm.py` lines 78-82). -/
def PUSH_D : List String := ["@SP", "AM=M+1", "A=A-1", "M=D"]

/-- `Segment.POP_D` (`vm.py` lines 99-102). -/
def POP_D : List String := ["@SP", "AM=M-1", "D=M"]

/-- `Segment.read_to_d` for base-pointer segments (`vm.py` lines 84-89). -/
def read_to_d (segment : String) (parameter : Nat) : List String :=
  ["@" ++ segment, "D=M", "@" ++ Nat.repr parameter, "A=D+A", "D=M"]

/-- `Segment.SAVE_TARGET_TO_R15` (`vm.py` lines 91-97). -/
def SAVE_TARGET_TO_R15 (segment : String) (parameter : Nat) : List String :=
  ["@" ++ segment, "D=M", "@" ++ Nat.repr parameter, "D=D+A", "@R15", "M=D"]

/-- `Segment.SAVE_D_TO_TARGET_IN_R15` (`vm.py` lines 104-107). -/
def SAVE_D_TO_TARGET_IN_R15 : List String := ["@R15", "A=M", "M=D"]

/-- `FixedSegment.check_bounds` (`vm.py` lines 179-181). -/
def check_bounds (seg : Seg) (parameter : Nat) : Except String Unit :=
  if parameter ≥ seg.size then
    .error ("Out of \"" ++ seg.name ++ "\" segment\x27s bounds: " ++ Nat.repr parameter)
  else .ok ()

/-- `push_asm` of every segment class (`vm.py` lines 115-119, 138-140,
147-149, 166-168, 183-186). -/
def push_asm (seg : Seg) (parameter : Nat) (filename : String) :
    Except String (List String) :=
  match seg with
  | .constant => .ok (["@" ++ Nat.repr parameter, "D=A"] ++ PUSH_D)
  | .static =>
    .ok (["@" ++ filename ++ "." ++ Nat.repr parameter, "D=M"] ++ PUSH_D)
  | .pointer | .temp => do
    check_bounds seg parameter
    .ok (["@" ++ Nat.repr (seg.base + parameter), "D=M"] ++ PUSH_D)
  | .localSeg | .argument | .thisSeg | .thatSeg =>
    .ok (read_to_d (seg.symbol.getD "") parameter ++ PUSH_D)

/-- `pop_asm` of every segment class (`vm.py` lines 109, 121-125, 142-143,
151-153, 170-172, 188-191). -/
def pop_asm (seg : Seg) (parameter : Nat) (filename : String) :
    Except String (List String) :=
  match seg with
  | .constant => .error "Cannot pop constant"
  | .static =>
    .ok (POP_D ++ ["@" ++ filename ++ "." ++ Nat.repr parameter, "M=D"])
  | .pointer | .temp => do
    check_bounds seg parameter
    .ok (POP_D ++ ["@" ++ Nat.repr (seg.base + parameter), "M=D"])
  | .localSeg | .argument | .thisSeg | .thatSeg =>
    .ok (SAVE_TARGET_TO_R15 (seg.symbol.getD "") parameter
      ++ POP_D ++ SAVE_D_TO_TARGET_IN_R15)

/-! ## The command model (`vm.py` lines 21-571) -/

/-- A `Function` command as tracked by the emitter (`current_function`). -/
structure Fn where
  name : String
  numLocals : Nat
deriving DecidableEq, Repr

/-- The closed set of VM commands.  `ret` is Python's `Return`,
`initVM` is the synthetic `Initialize` bootstrap command. -/
inductive Command
  | push (segment : Seg) (parameter : Nat) (filename : String)
  | pop (segment : Seg) (parameter : Nat) (filename : String)
  | add | sub | neg | eq | gt | lt | and | or | not
  | label (name : String)
  | goto (name : String)
  | ifGoto (name : String)
  | function (name : String) (numLocals : Nat)
  | call (name : String) (numArguments : Nat)
  | ret
  | initVM
deriving DecidableEq, Repr

/-- `StackOperation.max_parameter_value` (`vm.py` line 45). -/
def max_parameter_value : Nat := 0x7FFF

/-- `MAX_LOCALS` (`vm.py` line 14). -/
def MAX_LOCALS : Nat := 1024

/-- `StackOperation.__init__` for `Push` (`vm.py` lines 47-52):
the parameter-range check performed when a push command is constructed. -/
def mkPush (segment : Seg) (parameter : Nat) (filename : String) :
    Except String Command :=
  if parameter ≤ max_parameter_value then .ok (.push segment parameter filename)
  else .error ("Parameter out of range: " ++ Nat.repr parameter)

/-- `StackOperation.__init__` for `Pop` (`vm.py` lines 47-52). -/
def mkPop (segment : Seg) (parameter : Nat) (filename : String) :
    Except String Command :=
  if parameter ≤ max_parameter_value then .ok (.pop segment parameter filename)
  else .error ("Parameter out of range: " ++ Nat.repr parameter)

/-- The `function` branch of `parser` (`vm.py` lines 671-678): the
local-count range check performed when a `Function` command is constructed
from a source line (`parse_number` only accepts digit strings, so the
count is a natural number). -/
def parseFunction (name : String) (num_locals : Nat) : Except String Command :=
  if num_locals ≤ MAX_LOCALS then .ok (.function name num_locals)
  else .error ("Function cannot have " ++ Nat.repr num_locals ++ " locals")

/-- `Command.__str__` of every command class. -/
def strCmd : Command → String
  | .push seg p _ => "push " ++ seg.name ++ " " ++ Nat.repr p
  | .pop seg p _ => "pop " ++ seg.name ++ " " ++ Nat.repr p
  | .add => "add" | .sub => "sub" | .neg => "neg"
  | .eq => "eq" | .gt => "gt" | .lt => "lt"
  | .and => "and" | .or => "or" | .not => "not"
  | .label n => "label " ++ n
  | .goto n => "goto " ++ n
  | .ifGoto n => "if-goto " ++ n
  | .function n l => "function " ++ n ++ " " ++ Nat.repr l
  | .call n a => "call " ++ n ++ " " ++ Nat.repr a
  | .ret => "return"
  | .initVM => "initialize VM"

/-- `BINARY_OP_HEADER` (`vm.py` lines 222-225). -/
def BINARY_OP_HEADER : List String := ["@SP", "AM=M-1", "D=M", "A=A-1"]

/-- `ADD_CODE` (`vm.py` lines 227-228). -/
def ADD_CODE : List String := BINARY_OP_HEADER ++ ["M=D+M"]

/-- `SUB_CODE` (`vm.py` lines 229-230). -/
def SUB_CODE : List String := BINARY_OP_HEADER ++ ["M=M-D"]

/-- `NEG_CODE` (`vm.py` lines 231-234).  The template string ends with a
newline, hence the trailing empty line. -/
def NEG_CODE : List String := ["@SP", "A=M-1", "M=-M", ""]

/-- `AND_CODE` (`vm.py` lines 286-287). -/
def AND_CODE : List String := BINARY_OP_HEADER ++ ["M=M&D"]

/-- `OR_CODE` (`vm.py` lines 292-293). -/
def OR_CODE : List String := BINARY_OP_HEADER ++ ["M=M|D"]

/-- `NOT_CODE` (`vm.py` lines 294-297).  The template string ends with a
newline, hence the trailing empty line. -/
def NOT_CODE : List String := ["@SP", "A=M-1", "M=!M", ""]

/-- `Eq.JUMP` (`vm.py` line 271). -/
def Eq_JUMP : String := "JEQ"

/-- `Gt.JUMP` (`vm.py` line 275). -/
def Gt_JUMP : String := "JLT"

/-- `Lt.JUMP` (`vm.py` line 279). -/
def Lt_JUMP : String := "JGT"

/-- `EQUALITY_CHECK` with `%(jump)s` and `%(unique_identifier)d`
substituted (`vm.py` lines 250-262). -/
def EQUALITY_CHECK (jump : String) (i : Nat) : List String :=
  BINARY_OP_HEADER ++
  ["D=D-M",
   "@EQUAL" ++ Nat.repr i,
   "D;" ++ jump,
   "D=0",
   "@WRITE" ++ Nat.repr i,
   "0;JMP",
   "(EQUAL" ++ Nat.repr i ++ ")",
   "D=-1",
   "(WRITE" ++ Nat.repr i ++ ")",
   "@SP",
   "A=M-1",
   "M=D"]

/-- `BranchingCommand.name_to_label` (`vm.py` lines 331-335): Python
formats `None` as the string `"None"`. -/
def name_to_label (function : Option Fn) (name : String) : String :=
  (match function with | some f => f.name | none => "None") ++ "$" ++ name

/-- `Goto.GOTO` (`vm.py` lines 357-359). -/
def GOTO (target : String) : List String := ["@" ++ target, "0;JMP"]

/-- `Function.name_to_label` (`vm.py` lines 417-419). -/
def function_name_to_label (name : String) : String := "F" ++ name

/-- `Call.SAVED_VARS` (`vm.py` line 435). -/
def SAVED_VARS : List String := ["LCL", "ARG", "THIS", "THAT"]

/-- `Call.asm_code` (`vm.py` lines 465-475): `SAVE_CONST`, `SAVE_VARS`,
`SET_ARG`, `SET_LCL`, the goto and the `CALL_LABEL`, line by line. -/
def call_asm_code (i : Nat) (name : String) (num_arguments : Nat) :
    List String :=
  let stack_offset := num_arguments + SAVED_VARS.length + 1
  let symbol := "CALL" ++ Nat.repr i
  (["@" ++ symbol, "D=A"] ++ PUSH_D) ++
  (SAVED_VARS.map (fun v => ["@" ++ v, "D=M"] ++ PUSH_D)).flatten ++
  ["@" ++ Nat.repr stack_offset, "D=A", "@SP", "D=M-D", "@ARG", "M=D"] ++
  ["@SP", "D=M", "@LCL", "M=D"] ++
  GOTO (function_name_to_label name) ++
  ["(" ++ symbol ++ ")"]

/-- `Function.asm_code` (`vm.py` lines 380-415): label, `ROOM_FOR_LOCALS_HEADER`,
`num_locals` copies of `ZERO_LOCAL`, `ROOM_FOR_LOCALS_FOOTER`. -/
def function_asm_code (name : String) (num_locals : Nat) : List String :=
  ["(" ++ function_name_to_label name ++ ")", "@SP", "A=M"] ++
  (List.replicate num_locals ["M=0", "A=A+1"]).flatten ++
  ["D=A", "@SP", "M=D"]

/-- `Return.asm_code` (`vm.py` lines 484-551), line by line. -/
def return_asm_code : List String :=
  ["@SP", "AM=M-1", "D=M", "@R15", "M=D"] ++          -- STORE_RETURN_VALUE
  ["@ARG", "D=M", "@R14", "M=D"] ++                   -- STORE_ARG
  ["@LCL", "D=M", "@SP", "M=D"] ++                    -- SET_SP_TO_LCL
  (SAVED_VARS.reverse.map (fun v => POP_D ++ ["@" ++ v, "M=D"])).flatten ++
  (POP_D ++ ["@R13", "M=D"]) ++                       -- STORE_RETURN_ADDRESS
  ["@R14", "D=M", "@SP", "M=D+1"] ++                  -- RESTORE_SP
  ["@R15", "D=M", "@SP", "A=M-1", "M=D"] ++           -- WRITE_RETURN_VALUE
  ["@R13", "A=M", "0;JMP"]                            -- JUMP

/-- `Command.asm_code` of every command class, producing the lines of the
generated assembly (or a translation error). -/
def asm_code (c : Command) (i : Nat) (f : Option Fn) :
    Except String (List String) :=
  match c with
  | .push seg p fname => push_asm seg p fname
  | .pop seg p fname => pop_asm seg p fname
  | .add => .ok ADD_CODE
  | .sub => .ok SUB_CODE
  | .neg => .ok NEG_CODE
  | .eq => .ok (EQUALITY_CHECK Eq_JUMP i)
  | .gt => .ok (EQUALITY_CHECK Gt_JUMP i)
  | .lt => .ok (EQUALITY_CHECK Lt_JUMP i)
  | .and => .ok AND_CODE
  | .or => .ok OR_CODE
  | .not => .ok NOT_CODE
  | .label n => .ok ["(" ++ name_to_label f n ++ ")"]
  | .goto n => .ok (GOTO (name_to_label f n))
  | .ifGoto n => .ok (POP_D ++ ["@" ++ name_to_label f n, "D;JNE"])
  | .function n l => .ok (function_asm_code n l)
  | .call n a => .ok (call_asm_code i n a)
  | .ret => .ok return_asm_code
  | .initVM =>
    -- Initialize.asm_code (vm.py lines 560-567): SP := 256 followed by
    -- Call('Sys.init', 0).asm(i, function) with its trailing newline cut;
    -- Call's asm is its comment line followed by call_asm_code.
    .ok (["@256", "D=A", "@SP", "M=D"] ++
      ("// " ++ strCmd (.call "Sys.init" 0)) :: call_asm_code i "Sys.init" 0)

/-- `Command.asm` (`vm.py` lines 21-31) at the level of lines: a single-line
comment `// <command text>` followed by the command's assembly lines. -/
def asmLines (c : Command) (i : Nat) (f : Option Fn) :
    Except String (List String) :=
  (asm_code c i f).map (fun L => ("// " ++ strCmd c) :: L)

/-- `Command.asm` (`vm.py` lines 21-31) as text: `'// %s\n%s\n'`, i.e. every
line of `asmLines` terminated by a newline. -/
def asmStr (c : Command) (i : Nat) (f : Option Fn) : Except String String :=
  (asmLines c i f).map (fun L => String.join (L.map (· ++ "\n")))

/-- The loop body of `code` (`vm.py` lines 965-972): walk the commands,
keeping the ordinal position and the current (latest) function command. -/
def codeAux : List Command → Nat → Option Fn → Except String String
  | [], _, _ => .ok ""
  | c :: cs, i, f =>
    let f' := match c with | .function n l => some ⟨n, l⟩ | _ => f
    do
      let s ← asmStr c i f'
      let rest ← codeAux cs (i + 1) f'
      return s ++ rest

/-- `code` (`vm.py` lines 705-972). -/
def code (commands : List Command) : Except String String :=
  codeAux commands 0 none

/-- `code_with_init` (`vm.py` lines 975-1033). -/
def code_with_init (commands : List Command) : Except String String :=
  code (.initVM :: commands)

/-- Reassignment of the emitter's `current_function` (`vm.py` lines 968-969). -/
def updateFn (c : Command) (f : Option Fn) : Option Fn :=
  match c with | .function n l => some ⟨n, l⟩ | _ => f

/-- The `current_function` after walking a command prefix. -/
def fnAfter : List Command → Option Fn → Option Fn
  | [], f => f
  | c :: cs, f => fnAfter cs (updateFn c f)

/-- Block structure of the emitted text: the line blocks of each command. -/
def codeBlocksAux : List Command → Nat → Option Fn →
    Except String (List (List String))
  | [], _, _ => .ok []
  | c :: cs, i, f =>
    let f' := match c with | .function n l => some ⟨n, l⟩ | _ => f
    do
      let b ← asmLines c i f'
      let rest ← codeBlocksAux cs (i + 1) f'
      return b :: rest

def codeBlocks (commands : List Command) : Except String (List (List String)) :=
  codeBlocksAux commands 0 none

theorem foldl_append_str (xs : List String) :
    ∀ a : String, xs.foldl (· ++ ·) a = a ++ xs.foldl (· ++ ·) "" := by
  induction xs with
  | nil => intro a; simp
  | cons x xs ih =>
    intro a
    simp only [List.foldl_cons]
    rw [ih (a ++ x), ih ("" ++ x)]
    simp [String.append_assoc]

theorem join_cons (x : String) (xs : List String) :
    String.join (x :: xs) = x ++ String.join xs := by
  simp only [String.join, List.foldl_cons]
  rw [foldl_append_str]
  simp

/-- The emitted text is the concatenation of the blocks, every line
newline-terminated. -/
theorem codeAux_eq_blocks (cmds : List Command) :
    ∀ (i : Nat) (f : Option Fn),
      codeAux cmds i f = (codeBlocksAux cmds i f).map
        (fun bs => String.join (bs.map (fun L => String.join (L.map (· ++ "\n"))))) := by
  induction cmds with
  | nil => intro i f; rfl
  | cons c cs ih =>
    intro i f
    simp only [codeAux, codeBlocksAux, asmStr, ih]
    cases asmLines c i (match c with | .function n l => some ⟨n, l⟩ | _ => f) with
    | error e => rfl
    | ok b =>
      cases codeBlocksAux cs (i + 1)
          (match c with | .function n l => some ⟨n, l⟩ | _ => f) with
      | error e => rfl
      | ok bs => simp [Except.map, Except.bind, bind, pure, Except.pure, join_cons]

/-! ## String helper lemmas -/

theorem str_append_right_cancel {s t u : String} (h : s ++ u = t ++ u) :
    s = t := by
  apply String.ext
  have := congrArg String.data h
  simp only [String.data_append] at this
  exact List.append_cancel_right this

theorem str_append_left_cancel {s t u : String} (h : u ++ s = u ++ t) :
    s = t := by
  apply String.ext
  have := congrArg String.data h
  simp only [String.data_append] at this
  exact List.append_cancel_left this

theorem repr_append_injective (p : String) {i j : Nat}
    (h : p ++ Nat.repr i = p ++ Nat.repr j) : i = j :=
  repr_injective (str_append_left_cancel h)

/-! ## Generated-label extraction -/

/-- Character-level helper for `labelDef?`. -/
def labelDefChars : List Char → Option (List Char)
  | c :: rest =>
    if c = '(' ∧ rest.getLast? = some ')' then some rest.dropLast else none
  | [] => none

/-- The label name declared by an assembly line of the form `(NAME)`,
if the line is such a declaration. -/
def labelDef? (line : String) : Option String :=
  (labelDefChars line.data).map (⟨·⟩)

/-- All labels declared by a block of assembly lines. -/
def labelDefs (lines : List String) : List String :=
  lines.filterMap labelDef?

theorem data_append_cons (a : String) (c : Char) (s : String) :
    (a ++ c.toString ++ s).data = a.data ++ c :: s.data := by
  simp [String.data_append]
  rfl

theorem labelDef?_paren (s : String) :
    labelDef? ("(" ++ s ++ ")") = some s := by
  have hdata : ("(" ++ s ++ ")").data = '(' :: (s.data ++ [')']) := by
    have : ("(" ++ s ++ ")").data = "(".data ++ s.data ++ ")".data := by
      simp [String.data_append]
    rw [this]
    rfl
  rw [labelDef?, hdata, labelDefChars, if_pos ⟨rfl, by simp⟩,
    List.dropLast_concat]
  rfl

theorem labelDef?_head (line : String) (c : Char) (cs : List Char)
    (hdata : line.data = c :: cs) (hc : c ≠ '(') : labelDef? line = none := by
  rw [labelDef?, hdata, labelDefChars, if_neg (by simp [hc])]
  rfl

theorem labelDef?_at (s : String) : labelDef? ("@" ++ s) = none := by
  apply labelDef?_head _ '@' s.data
  · have : ("@" ++ s).data = "@".data ++ s.data := by simp [String.data_append]
    rw [this]; rfl
  · decide

/-! ## C4 / C10: qualification of control-flow labels -/

/-- **C4.** For every Label, Goto or IfGoto command, the rendered symbol is
the enclosing function's name and the label name joined by `$` (function
`mult`, label `hello` gives `mult$hello`), with the sentinel produced for a
missing function; two functions with different names give distinct
qualified symbols for the same label text, so a goto targeting one never
lands in the other. -/
theorem c4_label_qualification (i : Nat) (fo : Option Fn) (f f1 f2 : Fn)
    (name : String) (hne : f1.name ≠ f2.name) :
    name_to_label (some f) name = f.name ++ "$" ++ name ∧
    name_to_label none name = "None" ++ "$" ++ name ∧
    asm_code (.label name) i fo = .ok ["(" ++ name_to_label fo name ++ ")"] ∧
    asm_code (.goto name) i fo =
      .ok ["@" ++ name_to_label fo name, "0;JMP"] ∧
    asm_code (.ifGoto name) i fo =
      .ok (POP_D ++ ["@" ++ name_to_label fo name, "D;JNE"]) ∧
    name_to_label (some f1) name ≠ name_to_label (some f2) name := by
  refine ⟨rfl, rfl, rfl, rfl, rfl, fun h => hne ?_⟩
  unfold name_to_label at h
  exact str_append_right_cancel (str_append_right_cancel h)

/-- Witness for `c4_label_qualification`: function `mult`, label `hello`
renders to `mult$hello`, and `mult$hello ≠ add$hello`. -/
theorem c4_label_qualification_witness :
    name_to_label (some ⟨"mult", 0⟩) "hello" = "mult" ++ "$" ++ "hello" ∧
    name_to_label (some ⟨"mult", 0⟩) "hello" ≠
      name_to_label (some ⟨"add", 0⟩) "hello" := by
  have h := c4_label_qualification 0 none ⟨"mult", 0⟩ ⟨"mult", 0⟩ ⟨"add", 0⟩
    "hello" (by decide)
  exact ⟨h.1, h.2.2.2.2.2⟩

/-- **C10.** The sentinel qualifying labels outside any function is the
literal text `None`: for every label name, rendering outside any function
produces exactly the same qualified symbol (`None$` + name) as rendering
inside a function literally named `None`. -/
theorem c10_none_sentinel_collision (name : String) (k i : Nat) :
    name_to_label none name = "None$" ++ name ∧
    name_to_label (some ⟨"None", k⟩) name = name_to_label none name ∧
    asm_code (.label name) i (some ⟨"None", k⟩) =
      asm_code (.label name) i none ∧
    asm_code (.goto name) i (some ⟨"None", k⟩) =
      asm_code (.goto name) i none ∧
    asm_code (.ifGoto name) i (some ⟨"None", k⟩) =
      asm_code (.ifGoto name) i none := by
  refine ⟨?_, rfl, rfl, rfl, rfl⟩
  unfold name_to_label
  apply String.ext
  simp [String.data_append]

/-! ## C6: local-count validation at construction -/

/-- **C6.** When a `Function` command is constructed (by the `function`
branch of the parser, the construction site of every `Function` command in
the pipeline), a declared local count above `MAX_LOCALS = 1024` is rejected
with an error and a count of at most 1024 is accepted.  Counts are
naturals (`parse_number` accepts only digit strings), so the lower bound 0
of the claimed range holds by construction. -/
theorem c6_function_local_count (name : String) (n : Nat) :
    (n ≤ 1024 → parseFunction name n = .ok (.function name n)) ∧
    (1024 < n → parseFunction name n =
      .error ("Function cannot have " ++ Nat.repr n ++ " locals")) := by
  constructor
  · intro h
    simp only [parseFunction, MAX_LOCALS]
    rw [if_pos h]
  · intro h
    simp only [parseFunction, MAX_LOCALS]
    rw [if_neg (by omega)]

/-- Witness for `c6_function_local_count`: 1025 locals are rejected with
the source's error message, 1 local is accepted. -/
theorem c6_function_local_count_witness :
    parseFunction "prod" 1025 = .error "Function cannot have 1025 locals" ∧
    parseFunction "mult" 1 = .ok (.function "mult" 1) := by
  constructor
  · rw [(c6_function_local_count "prod" 1025).2 (by decide)]
    exact congrArg Except.error (by decide)
  · exact (c6_function_local_count "mult" 1).1 (by decide)

/-! ## C7: constant-pop rejection and fixed-segment bounds -/

/-- **C7.** Popping the constant segment fails with the
cannot-write-constant error (`'Cannot pop constant'` in the source), and a
push or pop of `pointer`/`temp` with an index at or beyond the segment's
size (2 for pointer, 8 for temp) fails with an out-of-bounds error naming
the segment and the offending index; in each case an error is returned in
place of assembly, so no assembly for the command is produced. -/
theorem c7_segment_errors (p : Nat) (fname : String) (seg : Seg)
    (hseg : seg = .pointer ∨ seg = .temp) (hp : seg.size ≤ p) :
    pop_asm .constant p fname = .error "Cannot pop constant" ∧
    Seg.size .pointer = 2 ∧ Seg.size .temp = 8 ∧
    pop_asm seg p fname = .error
      ("Out of \"" ++ seg.name ++ "\" segment\x27s bounds: " ++ Nat.repr p) ∧
    push_asm seg p fname = .error
      ("Out of \"" ++ seg.name ++ "\" segment\x27s bounds: " ++ Nat.repr p) := by
  rcases hseg with rfl | rfl <;>
    refine ⟨rfl, rfl, rfl, ?_, ?_⟩ <;>
      · simp only [pop_asm, push_asm, check_bounds]
        rw [if_pos hp]
        rfl

/-- Witness for `c7_segment_errors`: `pop pointer 2` and `push temp 8`. -/
theorem c7_segment_errors_witness :
    pop_asm .constant 1 "f" = .error "Cannot pop constant" ∧
    pop_asm .pointer 2 "f" =
      .error "Out of \"pointer\" segment\x27s bounds: 2" ∧
    push_asm .temp 8 "f" =
      .error "Out of \"temp\" segment\x27s bounds: 8" := by
  refine ⟨(c7_segment_errors 2 "f" .pointer (.inl rfl) (by decide)).1, ?_, ?_⟩
  · have h := (c7_segment_errors 2 "f" .pointer (.inl rfl) (by decide)).2.2.2.1
    rw [h]
    exact congrArg Except.error (by decide)
  · have h := (c7_segment_errors 8 "f" .temp (.inr rfl) (by decide)).2.2.2.2
    rw [h]
    exact congrArg Except.error (by decide)

/-! ## C9: shape of the emitted text -/

/-- **C9 (code bug).** The spec promises blank-line-free output, but the
`NEG_CODE` and `NOT_CODE` templates (alone among all templates) end in a
newline, so `Command.asm`'s closing `'\n'` produces a blank line after
every translated `neg` and `not`.  Every line of the output is
newline-terminated (`asmStr`), so the empty line in the `neg`/`not` blocks
is a blank line in the emitted text, visible as `\n\n` in the final
string. -/
theorem c9_neg_not_blank_line :
    code [Command.neg] = .ok "// neg\n@SP\nA=M-1\nM=-M\n\n" ∧
    code [Command.not] = .ok "// not\n@SP\nA=M-1\nM=!M\n\n" ∧
    codeBlocks [Command.neg] = .ok [["// neg", "@SP", "A=M-1", "M=-M", ""]] ∧
    "" ∈ ["// neg", "@SP", "A=M-1", "M=-M", ""] := by
  refine ⟨?_, ?_, ?_, by decide⟩ <;> rfl

/-! ## C8: error propagation aborts the whole unit -/

theorem codeAux_cons (c : Command) (cs : List Command) (i : Nat)
    (f : Option Fn) :
    codeAux (c :: cs) i f = do
      let s ← asmStr c i (updateFn c f)
      let rest ← codeAux cs (i + 1) (updateFn c f)
      return s ++ rest := by
  cases c <;> rfl

theorem codeAux_append (xs ys : List Command) : ∀ (i : Nat) (f : Option Fn),
    codeAux (xs ++ ys) i f = do
      let s ← codeAux xs i f
      let t ← codeAux ys (i + xs.length) (fnAfter xs f)
      return s ++ t := by
  induction xs with
  | nil =>
    intro i f
    simp only [List.nil_append, List.length_nil, Nat.add_zero, fnAfter,
      codeAux]
    cases codeAux ys i f with
    | error e => rfl
    | ok t =>
      show Except.ok t = Except.ok ("" ++ t)
      rw [String.empty_append]
  | cons c cs ih =>
    intro i f
    rw [List.cons_append, codeAux_cons, codeAux_cons,
      show (fnAfter (c :: cs) f) = fnAfter cs (updateFn c f) from rfl,
      show ((c :: cs).length = cs.length + 1) from rfl,
      show i + (cs.length + 1) = i + 1 + cs.length by omega]
    cases hs : asmStr c i (updateFn c f) with
    | error e => rfl
    | ok s =>
      simp only [Except.bind, bind, ih (i + 1) (updateFn c f)]
      cases codeAux cs (i + 1) (updateFn c f) with
      | error e => rfl
      | ok t =>
        simp only [Except.bind, bind]
        cases codeAux ys (i + 1 + cs.length) (fnAfter cs (updateFn c f)) with
        | error e => rfl
        | ok u => simp [pure, Except.pure, String.append_assoc]

/-- **C8.** If the rendering of some command in the sequence fails (all
commands before it rendering fine), translation of the whole unit returns
that command's error: the result is an `Except.error` carrying no
assembly text at all, so nothing is emitted for the unit. -/
theorem c8_error_aborts_unit (pre : List Command) (c : Command)
    (post : List Command) (e : String) (s : String)
    (hpre : codeAux pre 0 none = .ok s)
    (hc : asm_code c pre.length (updateFn c (fnAfter pre none)) = .error e) :
    code (pre ++ c :: post) = .error e := by
  rw [code, codeAux_append, hpre]
  show codeAux (c :: post) (0 + pre.length) (fnAfter pre none) >>= _ = _
  rw [Nat.zero_add, codeAux_cons]
  show (asmStr c pre.length (updateFn c (fnAfter pre none)) >>= _) >>= _ = _
  rw [show asmStr c pre.length (updateFn c (fnAfter pre none)) =
    Except.error e by rw [asmStr, asmLines, hc]; rfl]
  rfl

/-- Witness for `c8_error_aborts_unit`: a unit whose second command pops
the constant segment translates to the lone error, although its first
command renders fine — no partial assembly is returned. -/
theorem c8_error_aborts_unit_witness :
    code [Command.push .constant 5 "f", Command.pop .constant 1 "f",
      Command.push .constant 4 "f"] = .error "Cannot pop constant" :=
  c8_error_aborts_unit [Command.push .constant 5 "f"]
    (Command.pop .constant 1 "f") [Command.push .constant 4 "f"]
    "Cannot pop constant" "// push constant 5\n@5\nD=A\n@SP\nAM=M+1\nA=A-1\nM=D\n"
    rfl rfl

/-! ## C3: uniqueness of comparison branch labels -/

/-- The two branch labels generated by a comparison at position `i`, as
substituted into `EQUALITY_CHECK` (`vm.py` lines 252-259). -/
def equalityLabels (i : Nat) : String × String :=
  ("EQUAL" ++ Nat.repr i, "WRITE" ++ Nat.repr i)

theorem labelDefs_equality_check (jump : String) (i : Nat) :
    labelDefs (EQUALITY_CHECK jump i) =
      ["EQUAL" ++ Nat.repr i, "WRITE" ++ Nat.repr i] := by
  have h1 : labelDef? ("(EQUAL" ++ Nat.repr i ++ ")") =
      some ("EQUAL" ++ Nat.repr i) := by
    have : ("(EQUAL" ++ Nat.repr i ++ ")") =
        ("(" ++ ("EQUAL" ++ Nat.repr i) ++ ")") := by
      apply String.ext; simp [String.data_append]
    rw [this, labelDef?_paren]
  have h2 : labelDef? ("(WRITE" ++ Nat.repr i ++ ")") =
      some ("WRITE" ++ Nat.repr i) := by
    have : ("(WRITE" ++ Nat.repr i ++ ")") =
        ("(" ++ ("WRITE" ++ Nat.repr i) ++ ")") := by
      apply String.ext; simp [String.data_append]
    rw [this, labelDef?_paren]
  have hE : labelDef? ("@EQUAL" ++ Nat.repr i) = none := by
    apply labelDef?_head _ '@' ("EQUAL" ++ Nat.repr i).data
    · have : ("@EQUAL" ++ Nat.repr i) = "@" ++ ("EQUAL" ++ Nat.repr i) := by
        apply String.ext; simp [String.data_append]
      rw [this]
      have : ("@" ++ ("EQUAL" ++ Nat.repr i)).data =
          "@".data ++ ("EQUAL" ++ Nat.repr i).data := by
        simp [String.data_append]
      rw [this]; rfl
    · decide
  have hW : labelDef? ("@WRITE" ++ Nat.repr i) = none := by
    apply labelDef?_head _ '@' ("WRITE" ++ Nat.repr i).data
    · have : ("@WRITE" ++ Nat.repr i) = "@" ++ ("WRITE" ++ Nat.repr i) := by
        apply String.ext; simp [String.data_append]
      rw [this]
      have : ("@" ++ ("WRITE" ++ Nat.repr i)).data =
          "@".data ++ ("WRITE" ++ Nat.repr i).data := by
        simp [String.data_append]
      rw [this]; rfl
    · decide
  have hj : labelDef? ("D;" ++ jump) = none := by
    apply labelDef?_head _ 'D' (';' :: jump.data)
    · have : ("D;" ++ jump).data = "D;".data ++ jump.data := by
        simp [String.data_append]
      rw [this]; rfl
    · decide
  simp only [EQUALITY_CHECK, BINARY_OP_HEADER, labelDefs, List.cons_append,
    List.nil_append, List.filterMap_cons, h1, h2, hE, hW, hj]
  rfl

theorem equalityLabels_injective {i j : Nat}
    (h : equalityLabels i = equalityLabels j) : i = j := by
  simp only [equalityLabels, Prod.mk.injEq] at h
  exact repr_append_injective "EQUAL" h.1

theorem codeBlocksAux_replicate_eq (n : Nat) : ∀ (i : Nat) (f : Option Fn),
    codeBlocksAux (List.replicate n .eq) i f =
      .ok ((List.range n).map fun k =>
        ("// eq") :: EQUALITY_CHECK Eq_JUMP (i + k)) := by
  induction n with
  | zero => intro i f; rfl
  | succ n ih =>
    intro i f
    rw [List.replicate_succ, List.range_succ_eq_map]
    show (do
      let b ← asmLines .eq i f
      let rest ← codeBlocksAux (List.replicate n .eq) (i + 1) f
      return b :: rest) = _
    rw [ih (i + 1) f]
    simp only [asmLines, asm_code, Except.map, List.map_cons, List.map_map]
    have : ((List.range n).map fun k =>
        ("// eq") :: EQUALITY_CHECK Eq_JUMP (i + 1 + k)) =
        ((List.range n).map ((fun k =>
          ("// eq") :: EQUALITY_CHECK Eq_JUMP (i + k)) ∘ (· + 1))) := by
      apply List.map_congr_left
      intro k _
      simp only [Function.comp]
      rw [show i + (k + 1) = i + 1 + k by omega]
    rw [← this]
    rfl

/-- **C3.** Each comparison command rendered at ordinal position `i`
declares exactly the two branch labels `EQUAL<i>` and `WRITE<i>`, derived
from `i` (the emitter's enumeration index, not a separate counter); label
pairs of distinct positions are distinct, and a program of 100 `eq`
commands yields the blocks at positions 0..99 and hence 100 distinct
label pairs. -/
theorem c3_comparison_label_uniqueness (i j : Nat) (hij : i ≠ j) :
    labelDefs (EQUALITY_CHECK Eq_JUMP i) =
      [(equalityLabels i).1, (equalityLabels i).2] ∧
    labelDefs (EQUALITY_CHECK Gt_JUMP i) =
      [(equalityLabels i).1, (equalityLabels i).2] ∧
    labelDefs (EQUALITY_CHECK Lt_JUMP i) =
      [(equalityLabels i).1, (equalityLabels i).2] ∧
    equalityLabels i ≠ equalityLabels j ∧
    codeBlocks (List.replicate 100 .eq) =
      .ok ((List.range 100).map fun k =>
        ("// eq") :: EQUALITY_CHECK Eq_JUMP k) ∧
    ((List.range 100).map equalityLabels).Nodup := by
  refine ⟨labelDefs_equality_check _ i, labelDefs_equality_check _ i,
    labelDefs_equality_check _ i, fun h => hij (equalityLabels_injective h),
    ?_, ?_⟩
  · rw [codeBlocks, codeBlocksAux_replicate_eq]
    simp
  · exact (List.nodup_range 100).map
      (fun a b h => equalityLabels_injective h)

/-- Witness for `c3_comparison_label_uniqueness`: positions 0 and 1. -/
theorem c3_comparison_label_uniqueness_witness :
    labelDefs (EQUALITY_CHECK Eq_JUMP 0) = ["EQUAL0", "WRITE0"] ∧
    equalityLabels 0 ≠ equalityLabels 1 := by
  have h := c3_comparison_label_uniqueness 0 1 (by decide)
  constructor
  · rw [h.1]; decide
  · exact h.2.2.2.1

/-! ## C5: the bootstrap refines a Call -/

/-- Modelled from the spec: the bootstrap "initialize[s] SP to the base of
the stack region (address 256)" and must "then behave exactly as a Call to
the program's designated entry function with zero arguments" — that is,
SP-initialization followed by the full rendering of `call Sys.init 0` at
the bootstrap's ordinal position. -/
def bootstrap_spec (i : Nat) (f : Option Fn) : Except String (List String) :=
  (asmLines (.call "Sys.init" 0) i f).map
    (fun callBlock => ["@256", "D=A", "@SP", "M=D"] ++ callBlock)

/-! ## The target machine

Modelled from the spec: "assembly for a 16-bit register/accumulator target
machine (a 'Hack'-class architecture: one data register D, one address
register A, one stack pointer SP, and four indirect base registers
LCL/ARG/THIS/THAT)" (§1).  The machine executes the mnemonics appearing in
the generated code; SP/LCL/ARG/THIS/THAT/R13-R15 are RAM cells 0-4 and
13-15; all ALU results are 16-bit two's-complement words.  The
symbol-table resolution of `@symbol` references and of `(LABEL)`
declarations is the "separate two-pass binary assembler" collaborator
(§2), also modelled from the spec; `src/projects/06/assembler.py` encodes
instructions but leaves symbol resolution unimplemented. -/

/-- Destination field of a C-instruction. -/
inductive Dest
  | noDest | M | D | MD | A | AM | AD | AMD
deriving DecidableEq, Repr

/-- Jump field of a C-instruction. -/
inductive Jump
  | noJump | JGT | JEQ | JGE | JLT | JNE | JLE | JMP
deriving DecidableEq, Repr

/-- Computation field of a C-instruction. -/
inductive Comp
  | zero | one | negOne | D | A | M
  | notD | notA | notM | negD | negA | negM
  | DplusOne | AplusOne | MplusOne | DminusOne | AminusOne | MminusOne
  | DplusA | DplusM | DminusA | DminusM | AminusD | MminusD
  | DandA | DandM | DorA | DorM
deriving DecidableEq, Repr

/-- A symbolic Hack assembly instruction, as emitted by the translator. -/
inductive Instr
  | atNum (n : Nat)
  | atSym (s : String)
  | c (dest : Dest) (comp : Comp) (jump : Jump)
  | label (s : String)
deriving DecidableEq, Repr

def Dest.str : Dest → String
  | .noDest => "" | .M => "M" | .D => "D" | .MD => "MD"
  | .A => "A" | .AM => "AM" | .AD => "AD" | .AMD => "AMD"

def Jump.str : Jump → String
  | .noJump => "" | .JGT => "JGT" | .JEQ => "JEQ" | .JGE => "JGE"
  | .JLT => "JLT" | .JNE => "JNE" | .JLE => "JLE" | .JMP => "JMP"

def Comp.str : Comp → String
  | .zero => "0" | .one => "1" | .negOne => "-1"
  | .D => "D" | .A => "A" | .M => "M"
  | .notD => "!D" | .notA => "!A" | .notM => "!M"
  | .negD => "-D" | .negA => "-A" | .negM => "-M"
  | .DplusOne => "D+1" | .AplusOne => "A+1" | .MplusOne => "M+1"
  | .DminusOne => "D-1" | .AminusOne => "A-1" | .MminusOne => "M-1"
  | .DplusA => "D+A" | .DplusM => "D+M"
  | .DminusA => "D-A" | .DminusM => "D-M"
  | .AminusD => "A-D" | .MminusD => "M-D"
  | .DandA => "D&A" | .DandM => "D&M" | .DorA => "D|A" | .DorM => "D|M"

/-- Rendering of a symbolic instruction as one assembly text line. -/
def printInstr : Instr → String
  | .atNum n => "@" ++ Nat.repr n
  | .atSym s => "@" ++ s
  | .label s => "(" ++ s ++ ")"
  | .c d cmp j =>
    (match d with | .noDest => "" | _ => d.str ++ "=") ++ cmp.str ++
    (match j with | .noJump => "" | _ => ";" ++ j.str)

/-- Lines starting with `//` are comments for the downstream assembler. -/
def isComment (line : String) : Bool :=
  match line.data with
  | '/' :: '/' :: _ => true
  | _ => false

/-! ### Instruction-level renderings of the `vm.py` templates

Each definition below is the instruction list printed by the text-level
template of the same name; the `print_*` lemmas prove the correspondence. -/

/-- `Segment.PUSH_D` as instructions. -/
def PUSH_D_instrs : List Instr :=
  [.atSym "SP", .c .AM .MplusOne .noJump, .c .A .AminusOne .noJump,
   .c .M .D .noJump]

/-- `Segment.POP_D` as instructions. -/
def POP_D_instrs : List Instr :=
  [.atSym "SP", .c .AM .MminusOne .noJump, .c .D .M .noJump]

/-- `ConstantSegment` push (`read_to_d` + `PUSH_D`) as instructions. -/
def push_constant_instrs (p : Nat) : List Instr :=
  [.atNum p, .c .D .A .noJump] ++ PUSH_D_instrs

/-- `EQUALITY_CHECK` as instructions. -/
def equality_check_instrs (j : Jump) (i : Nat) : List Instr :=
  [.atSym "SP", .c .AM .MminusOne .noJump, .c .D .M .noJump,
   .c .A .AminusOne .noJump,
   .c .D .DminusM .noJump,
   .atSym ("EQUAL" ++ Nat.repr i),
   .c .noDest .D j,
   .c .D .zero .noJump,
   .atSym ("WRITE" ++ Nat.repr i),
   .c .noDest .zero .JMP,
   .label ("EQUAL" ++ Nat.repr i),
   .c .D .negOne .noJump,
   .label ("WRITE" ++ Nat.repr i),
   .atSym "SP", .c .A .MminusOne .noJump, .c .M .D .noJump]

/-- `Call.asm_code` as instructions. -/
def call_instrs (i : Nat) (name : String) (num_arguments : Nat) :
    List Instr :=
  ([.atSym ("CALL" ++ Nat.repr i), .c .D .A .noJump] ++ PUSH_D_instrs) ++
  (SAVED_VARS.map (fun v => [.atSym v, .c .D .M .noJump] ++ PUSH_D_instrs)).flatten ++
  [.atNum (num_arguments + SAVED_VARS.length + 1), .c .D .A .noJump,
   .atSym "SP", .c .D .MminusD .noJump, .atSym "ARG", .c .M .D .noJump] ++
  [.atSym "SP", .c .D .M .noJump, .atSym "LCL", .c .M .D .noJump] ++
  [.atSym ("F" ++ name), .c .noDest .zero .JMP] ++
  [.label ("CALL" ++ Nat.repr i)]

/-- `Function.asm_code` as instructions. -/
def function_instrs (name : String) (num_locals : Nat) : List Instr :=
  [.label ("F" ++ name), .atSym "SP", .c .A .M .noJump] ++
  (List.replicate num_locals
    [Instr.c .M .zero .noJump, Instr.c .A .AplusOne .noJump]).flatten ++
  [.c .D .A .noJump, .atSym "SP", .c .M .D .noJump]

/-- `Return.asm_code` as instructions. -/
def return_instrs : List Instr :=
  [.atSym "SP", .c .AM .MminusOne .noJump, .c .D .M .noJump,
   .atSym "R15", .c .M .D .noJump] ++
  [.atSym "ARG", .c .D .M .noJump, .atSym "R14", .c .M .D .noJump] ++
  [.atSym "LCL", .c .D .M .noJump, .atSym "SP", .c .M .D .noJump] ++
  (SAVED_VARS.reverse.map
    (fun v => POP_D_instrs ++ [Instr.atSym v, Instr.c .M .D .noJump])).flatten ++
  (POP_D_instrs ++ [.atSym "R13", .c .M .D .noJump]) ++
  [.atSym "R14", .c .D .M .noJump, .atSym "SP", .c .M .DplusOne .noJump] ++
  [.atSym "R15", .c .D .M .noJump, .atSym "SP", .c .A .MminusOne .noJump,
   .c .M .D .noJump] ++
  [.atSym "R13", .c .A .M .noJump, .c .noDest .zero .JMP]

/-- **C5.** The bootstrap's assembly is SP := 256 followed by text
identical to the rendering (`Command.asm`) of `call Sys.init 0` at the
bootstrap's own ordinal position, and `code_with_init` places the
bootstrap at position 0, before all user commands. -/
theorem c5_bootstrap_refines_call (i : Nat) (f : Option Fn)
    (cmds : List Command) :
    asm_code .initVM i f = bootstrap_spec i f ∧
    code_with_init cmds = code (.initVM :: cmds) ∧
    codeBlocks (.initVM :: cmds) = (do
      let rest ← codeBlocksAux cmds 1 none
      return (("// " ++ strCmd .initVM) ::
        (["@256", "D=A", "@SP", "M=D"] ++
          ("// " ++ strCmd (.call "Sys.init" 0)) ::
            call_asm_code 0 "Sys.init" 0)) :: rest) := by
  refine ⟨rfl, rfl, rfl⟩

/-! ### Printer consistency: the instruction templates print to the text templates -/

theorem print_push_constant (p : Nat) :
    (push_constant_instrs p).map printInstr =
      ["@" ++ Nat.repr p, "D=A"] ++ PUSH_D := rfl

theorem print_equality_check (i : Nat) :
    ((equality_check_instrs .JEQ i).map printInstr =
      EQUALITY_CHECK Eq_JUMP i) ∧
    ((equality_check_instrs .JLT i).map printInstr =
      EQUALITY_CHECK Gt_JUMP i) ∧
    ((equality_check_instrs .JGT i).map printInstr =
      EQUALITY_CHECK Lt_JUMP i) := by
  have hE : "@" ++ ("EQUAL" ++ Nat.repr i) = "@EQUAL" ++ Nat.repr i := by
    rw [← String.append_assoc]
    exact congrArg (· ++ Nat.repr i) (by decide)
  have hW : "@" ++ ("WRITE" ++ Nat.repr i) = "@WRITE" ++ Nat.repr i := by
    rw [← String.append_assoc]
    exact congrArg (· ++ Nat.repr i) (by decide)
  have hEl : "(" ++ ("EQUAL" ++ Nat.repr i) ++ ")" =
      "(EQUAL" ++ Nat.repr i ++ ")" :=
    congrArg (· ++ ")") (by
      rw [← String.append_assoc]
      exact congrArg (· ++ Nat.repr i) (by decide))
  have hWl : "(" ++ ("WRITE" ++ Nat.repr i) ++ ")" =
      "(WRITE" ++ Nat.repr i ++ ")" :=
    congrArg (· ++ ")") (by
      rw [← String.append_assoc]
      exact congrArg (· ++ Nat.repr i) (by decide))
  refine ⟨?_, ?_, ?_⟩ <;>
    · simp only [equality_check_instrs, EQUALITY_CHECK, Eq_JUMP, Gt_JUMP,
        Lt_JUMP, BINARY_OP_HEADER, List.map_cons, List.map_nil, printInstr,
        List.cons_append, List.nil_append, hE, hW, hEl, hWl]
      rfl

theorem print_call (i : Nat) (name : String) (num_arguments : Nat) :
    (call_instrs i name num_arguments).map printInstr =
      call_asm_code i name num_arguments := rfl

theorem print_function (name : String) (num_locals : Nat) :
    (function_instrs name num_locals).map printInstr =
      function_asm_code name num_locals := by
  simp only [function_instrs, function_asm_code, List.map_append,
    List.map_cons, List.map_nil, printInstr]
  rw [List.map_flatten, List.map_replicate]
  rfl

theorem print_return :
    return_instrs.map printInstr = return_asm_code := rfl

/-! ### Machine state and execution -/

/-- Truncation of an ALU result to a signed 16-bit word. -/
def wrap16 (x : Int) : Int := (x + 32768) % 65536 - 32768

/-- Value of a computation field given `D`, `A` and `M = ram A`.
Two's-complement bitwise complement is `-x - 1`. -/
def Comp.eval (c : Comp) (d a m : Int) : Int :=
  match c with
  | .zero => 0 | .one => 1 | .negOne => -1
  | .D => d | .A => a | .M => m
  | .notD => -d - 1 | .notA => -a - 1 | .notM => -m - 1
  | .negD => -d | .negA => -a | .negM => -m
  | .DplusOne => d + 1 | .AplusOne => a + 1 | .MplusOne => m + 1
  | .DminusOne => d - 1 | .AminusOne => a - 1 | .MminusOne => m - 1
  | .DplusA => d + a | .DplusM => d + m
  | .DminusA => d - a | .DminusM => d - m
  | .AminusD => a - d | .MminusD => m - d
  | .DandA => Int.land d a | .DandM => Int.land d m
  | .DorA => Int.lor d a | .DorM => Int.lor d m

def Dest.writesA : Dest → Bool
  | .A | .AM | .AD | .AMD => true
  | _ => false

def Dest.writesD : Dest → Bool
  | .D | .MD | .AD | .AMD => true
  | _ => false

def Dest.writesM : Dest → Bool
  | .M | .MD | .AM | .AMD => true
  | _ => false

def Jump.taken (j : Jump) (v : Int) : Bool :=
  match j with
  | .noJump => false
  | .JGT => v > 0
  | .JEQ => v = 0
  | .JGE => v ≥ 0
  | .JLT => v < 0
  | .JNE => v ≠ 0
  | .JLE => v ≤ 0
  | .JMP => true

/-- A resolved instruction: `@` of a numeric address, or a C-instruction. -/
inductive RInstr
  | at (n : Nat)
  | c (dest : Dest) (comp : Comp) (jump : Jump)
deriving DecidableEq, Repr

/-- Machine state: program counter, A and D registers, and RAM
(SP, LCL, ARG, THIS, THAT are cells 0-4; R13-R15 are cells 13-15). -/
structure Mach where
  pc : Nat
  a : Int
  d : Int
  ram : Int → Int

theorem Mach.ext1 {s t : Mach} (hpc : s.pc = t.pc) (ha : s.a = t.a)
    (hd : s.d = t.d) (hram : ∀ x, s.ram x = t.ram x) : s = t := by
  cases s; cases t
  simp_all
  funext x
  exact hram x

/-- One instruction.  An `M`-write stores at the instruction's own `A`
address; a taken jump loads the program counter from `A`. -/
def stepInstr (ins : RInstr) (s : Mach) : Mach :=
  match ins with
  | .at n => { s with a := (n : Int), pc := s.pc + 1 }
  | .c dst cmp jmp =>
    let v := wrap16 (cmp.eval s.d s.a (s.ram s.a))
    { pc := if jmp.taken v then s.a.toNat else s.pc + 1
      a := if dst.writesA then v else s.a
      d := if dst.writesD then v else s.d
      ram := if dst.writesM then (fun x => if x = s.a then v else s.ram x)
             else s.ram }

/-- One machine step; off the end of the program the machine halts. -/
def step (prog : List RInstr) (s : Mach) : Mach :=
  match prog[s.pc]? with
  | none => s
  | some ins => stepInstr ins s

/-- `fuel` machine steps. -/
def run (prog : List RInstr) : Nat → Mach → Mach
  | 0, s => s
  | n + 1, s => run prog n (step prog s)

theorem run_add (prog : List RInstr) (m n : Nat) :
    ∀ s : Mach, run prog (m + n) s = run prog n (run prog m s) := by
  induction m with
  | zero => intro s; rw [Nat.zero_add]; rfl
  | succ m ih =>
    intro s
    rw [show m + 1 + n = (m + n) + 1 by omega]
    show run prog (m + n) (step prog s) = _
    rw [ih (step prog s)]
    rfl

/-! ### Symbol resolution (the assembler collaborator, modelled from the spec) -/

/-- The architecture's predefined symbols. -/
def PREDEFINED : List (String × Nat) :=
  [("SP", 0), ("LCL", 1), ("ARG", 2), ("THIS", 3), ("THAT", 4),
   ("R0", 0), ("R1", 1), ("R2", 2), ("R3", 3), ("R4", 4), ("R5", 5),
   ("R6", 6), ("R7", 7), ("R8", 8), ("R9", 9), ("R10", 10), ("R11", 11),
   ("R12", 12), ("R13", 13), ("R14", 14), ("R15", 15),
   ("SCREEN", 16384), ("KBD", 24576)]

/-- First assembler pass: each `(LABEL)` maps to the address of the next
real instruction. -/
def labelTable : List Instr → Nat → List (String × Nat)
  | [], _ => []
  | .label s :: rest, k => (s, k) :: labelTable rest k
  | _ :: rest, k => labelTable rest (k + 1)

def lookupSym (tab : List (String × Nat)) (s : String) : Option Nat :=
  (tab.find? (fun p => decide (p.1 = s))).map (·.2)

def Instr.isLabel : Instr → Bool
  | .label _ => true
  | _ => false

/-- Resolution of one instruction against a symbol table. -/
def resolveInstr (tab : List (String × Nat)) : Instr → Option RInstr
  | .atNum n => some (.at n)
  | .atSym s => (lookupSym tab s).map .at
  | .c d cmp j => some (.c d cmp j)
  | .label _ => none

/-- Second assembler pass: drop labels, resolve symbolic `@`-references
through the predefined symbols and the label table.  (This model covers
programs whose symbols are all predefined or declared as labels, which
holds for all code emitted by the translator for the programs considered
here.) -/
def assemble (prog : List Instr) : Option (List RInstr) :=
  (prog.filter (fun ins => ! ins.isLabel)).mapM
    (resolveInstr (PREDEFINED ++ labelTable prog 0))

/-! ### Straight-line execution -/

/-- Instructions that fall through to the next program location. -/
def RInstr.fallsThrough : RInstr → Bool
  | .at _ => true
  | .c _ _ .noJump => true
  | _ => false

/-- Pure execution of a straight-line block. -/
def execStraight : List RInstr → Mach → Mach
  | [], s => s
  | i :: is, s => execStraight is (stepInstr i s)

theorem execStraight_append (xs ys : List RInstr) :
    ∀ s : Mach, execStraight (xs ++ ys) s = execStraight ys (execStraight xs s) := by
  induction xs with
  | nil => intro s; rfl
  | cons x xs ih => intro s; exact ih (stepInstr x s)

theorem pc_stepInstr_fallsThrough (i : RInstr) (s : Mach)
    (h : i.fallsThrough) : (stepInstr i s).pc = s.pc + 1 := by
  match i with
  | .at n => rfl
  | .c dst cmp .noJump => rfl
  | .c dst cmp .JGT | .c dst cmp .JEQ | .c dst cmp .JGE | .c dst cmp .JLT
  | .c dst cmp .JNE | .c dst cmp .JLE | .c dst cmp .JMP =>
    simp [RInstr.fallsThrough] at h

/-- Executing a straight-line block of the program advances the state by
pure block execution. -/
theorem run_straight (prog : List RInstr) (blk : List RInstr) :
    ∀ (rest : List RInstr) (s : Mach),
      prog.drop s.pc = blk ++ rest → (∀ i ∈ blk, i.fallsThrough) →
      run prog blk.length s = execStraight blk s := by
  induction blk with
  | nil => intro rest s _ _; rfl
  | cons i is ih =>
    intro rest s hdrop hft
    have hget : prog[s.pc]? = some i := by
      have h0 : (prog.drop s.pc)[0]? = prog[s.pc + 0]? := List.getElem?_drop prog s.pc 0
      rw [hdrop] at h0
      simpa using h0.symm
    show run prog is.length (step prog s) = execStraight is (stepInstr i s)
    rw [step, hget]
    have hpc : (stepInstr i s).pc = s.pc + 1 :=
      pc_stepInstr_fallsThrough i s (hft i (List.mem_cons_self i is))
    apply ih rest (stepInstr i s)
    · rw [hpc, ← List.drop_drop, hdrop]
      rfl
    · intro j hj; exact hft j (List.mem_cons_of_mem i hj)

theorem run_straight_fuel (prog blk rest : List RInstr) (s : Mach) (n : Nat)
    (hn : blk.length = n) (hdrop : prog.drop s.pc = blk ++ rest)
    (hft : ∀ i ∈ blk, i.fallsThrough) :
    run prog n s = execStraight blk s := by
  subst hn
  exact run_straight prog blk rest s hdrop hft

theorem wrap_eq {v : Int} (h1 : -32768 ≤ v) (h2 : v ≤ 32767) :
    wrap16 v = v := by
  unfold wrap16; omega

theorem wrap16_lb (v : Int) : -32768 ≤ wrap16 v := by
  unfold wrap16; omega

theorem wrap16_ub (v : Int) : wrap16 v ≤ 32767 := by
  unfold wrap16; omega

theorem run_halt (prog : List RInstr) (n : Nat) :
    ∀ s : Mach, prog.length ≤ s.pc → run prog n s = s := by
  induction n with
  | zero => intro s _; rfl
  | succ n ih =>
    intro s h
    show run prog n (step prog s) = s
    rw [step, List.getElem?_eq_none h]
    exact ih s h

/-! ## C2: semantics of the comparison commands

The comparison block is assembled (at ordinal position 0) and executed on
the machine model. -/

/-- `EQUALITY_CHECK` at position 0 after symbol resolution: the two branch
labels sit at instruction addresses 10 and 11. -/
def equality_check_resolved (j : Jump) : List RInstr :=
  [.at 0, .c .AM .MminusOne .noJump, .c .D .M .noJump, .c .A .AminusOne .noJump,
   .c .D .DminusM .noJump, .at 10, .c .noDest .D j, .c .D .zero .noJump,
   .at 11, .c .noDest .zero .JMP, .c .D .negOne .noJump,
   .at 0, .c .A .MminusOne .noJump, .c .M .D .noJump]

theorem assemble_equality_check (j : Jump) :
    assemble (equality_check_instrs j 0) = some (equality_check_resolved j) := rfl

/-- Executing the resolved comparison block from a stack holding `x` (pushed
first, at `S-2`) below `y` (pushed second, at `S-1`): the stack shrinks by
one and its new top holds all-ones exactly when the block's branch is taken
on the wrapped difference `y - x`. -/
theorem equality_check_exec (j : Jump) (S x y a0 d0 : Int) (r : Int → Int)
    (hS1 : 16 ≤ S) (hS2 : S ≤ 32767)
    (hx1 : -32768 ≤ x) (hx2 : x ≤ 32767)
    (hy1 : -32768 ≤ y) (hy2 : y ≤ 32767)
    (hr0 : r 0 = S) (hrx : r (S - 2) = x) (hry : r (S - 1) = y) :
    run (equality_check_resolved j) 13 ⟨0, a0, d0, r⟩ =
      ⟨14, S - 2, (if j.taken (wrap16 (y - x)) then -1 else 0),
        fun z => if z = S - 2 then (if j.taken (wrap16 (y - x)) then -1 else 0)
                 else if z = 0 then S - 1 else r z⟩ := by
  set w : Int := wrap16 (y - x) with hw
  have hwlb := wrap16_lb (y - x)
  have hwub := wrap16_ub (y - x)
  set r1 : Int → Int := (fun z => if z = 0 then S - 1 else r z) with hr1
  have hr1v : ∀ z, r1 z = if z = 0 then S - 1 else r z := fun z => rfl
  -- the six straight-line instructions before the branch
  have e0 : stepInstr (.at 0) (⟨0, a0, d0, r⟩ : Mach) = ⟨1, 0, d0, r⟩ := rfl
  have e1 : stepInstr (.c .AM .MminusOne .noJump) (⟨1, 0, d0, r⟩ : Mach) =
      ⟨2, S - 1, d0, r1⟩ := by
    apply Mach.ext1
    · rfl
    · show wrap16 (r 0 - 1) = S - 1
      rw [hr0, wrap_eq (by omega) (by omega)]
    · rfl
    · intro z
      show (if z = 0 then wrap16 (r 0 - 1) else r z) = r1 z
      rw [hr0, wrap_eq (by omega) (by omega), hr1v]
  have e2 : stepInstr (.c .D .M .noJump) (⟨2, S - 1, d0, r1⟩ : Mach) =
      ⟨3, S - 1, y, r1⟩ := by
    apply Mach.ext1
    · rfl
    · rfl
    · show wrap16 (r1 (S - 1)) = y
      rw [hr1v, if_neg (by omega), hry, wrap_eq (by omega) (by omega)]
    · intro z; rfl
  have e3 : stepInstr (.c .A .AminusOne .noJump) (⟨3, S - 1, y, r1⟩ : Mach) =
      ⟨4, S - 2, y, r1⟩ := by
    apply Mach.ext1
    · rfl
    · show wrap16 (S - 1 - 1) = S - 2
      rw [wrap_eq (by omega) (by omega)]
      omega
    · rfl
    · intro z; rfl
  have e4 : stepInstr (.c .D .DminusM .noJump) (⟨4, S - 2, y, r1⟩ : Mach) =
      ⟨5, S - 2, w, r1⟩ := by
    apply Mach.ext1
    · rfl
    · rfl
    · show wrap16 (y - r1 (S - 2)) = w
      rw [hr1v, if_neg (by omega), hrx, hw]
    · intro z; rfl
  have e5 : stepInstr (.at 10) (⟨5, S - 2, w, r1⟩ : Mach) = ⟨6, 10, w, r1⟩ := rfl
  have h6 : run (equality_check_resolved j) 6 ⟨0, a0, d0, r⟩ = ⟨6, 10, w, r1⟩ := by
    rw [run_straight_fuel (equality_check_resolved j)
      [.at 0, .c .AM .MminusOne .noJump, .c .D .M .noJump,
       .c .A .AminusOne .noJump, .c .D .DminusM .noJump, .at 10]
      [.c .noDest .D j, .c .D .zero .noJump, .at 11, .c .noDest .zero .JMP,
       .c .D .negOne .noJump, .at 0, .c .A .MminusOne .noJump, .c .M .D .noJump]
      ⟨0, a0, d0, r⟩ 6 rfl rfl (by decide)]
    simp only [execStraight]
    rw [e0, e1, e2, e3, e4, e5]
  -- the conditional branch
  have e6 : step (equality_check_resolved j) ⟨6, 10, w, r1⟩ =
      ⟨if j.taken w then 10 else 7, 10, w, r1⟩ := by
    show stepInstr (.c .noDest .D j) (⟨6, 10, w, r1⟩ : Mach) = _
    apply Mach.ext1
    · show (if j.taken (wrap16 w) then (10 : Int).toNat else 7) = _
      rw [wrap_eq (by omega) (by omega)]
      rfl
    · rfl
    · rfl
    · intro z; rfl
  -- the tail after the branch target
  have etail : ∀ dv : Int, -1 ≤ dv → dv ≤ 0 →
      execStraight [.at 0, .c .A .MminusOne .noJump, .c .M .D .noJump]
        (⟨11, 10, dv, r1⟩ : Mach) =
      ⟨14, S - 2, dv, fun z => if z = S - 2 then dv else r1 z⟩ := by
    intro dv hdv1 hdv2
    have t0 : stepInstr (.at 0) (⟨11, 10, dv, r1⟩ : Mach) = ⟨12, 0, dv, r1⟩ := rfl
    have t1 : stepInstr (.c .A .MminusOne .noJump) (⟨12, 0, dv, r1⟩ : Mach) =
        ⟨13, S - 2, dv, r1⟩ := by
      apply Mach.ext1
      · rfl
      · show wrap16 (r1 0 - 1) = S - 2
        rw [hr1v, if_pos rfl, wrap_eq (by omega) (by omega)]
        omega
      · rfl
      · intro z; rfl
    have t2 : stepInstr (.c .M .D .noJump) (⟨13, S - 2, dv, r1⟩ : Mach) =
        ⟨14, S - 2, dv, fun z => if z = S - 2 then dv else r1 z⟩ := by
      apply Mach.ext1
      · rfl
      · rfl
      · rfl
      · intro z
        show (if z = S - 2 then wrap16 dv else r1 z) = _
        rw [wrap_eq (by omega) (by omega)]
    simp only [execStraight]
    rw [t0, t1, t2]
  rw [show (13 : Nat) = 6 + (1 + 6) from rfl, run_add, run_add, h6,
    show run (equality_check_resolved j) 1 ⟨6, 10, w, r1⟩ =
      step (equality_check_resolved j) ⟨6, 10, w, r1⟩ from rfl, e6]
  by_cases hb : j.taken w = true
  · rw [if_pos hb, if_pos hb]
    have hA : run (equality_check_resolved j) 4 ⟨10, 10, w, r1⟩ =
        ⟨14, S - 2, -1, fun z => if z = S - 2 then -1 else r1 z⟩ := by
      rw [run_straight_fuel (equality_check_resolved j)
        [.c .D .negOne .noJump, .at 0, .c .A .MminusOne .noJump,
         .c .M .D .noJump] [] ⟨10, 10, w, r1⟩ 4 rfl rfl (by decide)]
      have n0 : stepInstr (.c .D .negOne .noJump) (⟨10, 10, w, r1⟩ : Mach) =
          ⟨11, 10, -1, r1⟩ := by
        apply Mach.ext1
        · rfl
        · rfl
        · show wrap16 (-1) = -1
          rw [wrap_eq (by omega) (by omega)]
        · intro z; rfl
      show execStraight
        ([.c .D .negOne .noJump] ++
          [.at 0, .c .A .MminusOne .noJump, .c .M .D .noJump])
        (⟨10, 10, w, r1⟩ : Mach) = _
      rw [execStraight_append]
      show execStraight _ (stepInstr (.c .D .negOne .noJump) ⟨10, 10, w, r1⟩) = _
      rw [n0, etail (-1) (by omega) (by omega)]
    rw [show (6 : Nat) = 4 + 2 from rfl, run_add, hA,
      run_halt _ 2 _ (by simp [equality_check_resolved])]
  · rw [if_neg hb, if_neg hb]
    have n0 : stepInstr (.c .D .zero .noJump) (⟨7, 10, w, r1⟩ : Mach) =
        ⟨8, 10, 0, r1⟩ := by
      apply Mach.ext1
      · rfl
      · rfl
      · show wrap16 0 = 0
        rw [wrap_eq (by omega) (by omega)]
      · intro z; rfl
    have n1 : stepInstr (.at 11) (⟨8, 10, 0, r1⟩ : Mach) = ⟨9, 11, 0, r1⟩ := rfl
    have h2 : run (equality_check_resolved j) 2 ⟨7, 10, w, r1⟩ =
        ⟨9, 11, 0, r1⟩ := by
      rw [run_straight_fuel (equality_check_resolved j)
        [.c .D .zero .noJump, .at 11]
        [.c .noDest .zero .JMP, .c .D .negOne .noJump, .at 0,
         .c .A .MminusOne .noJump, .c .M .D .noJump]
        ⟨7, 10, w, r1⟩ 2 rfl rfl (by decide)]
      simp only [execStraight]
      rw [n0, n1]
    have hjmp : step (equality_check_resolved j) ⟨9, 11, 0, r1⟩ =
        ⟨11, 11, 0, r1⟩ := by
      show stepInstr (.c .noDest .zero .JMP) (⟨9, 11, 0, r1⟩ : Mach) = _
      apply Mach.ext1
      · rfl
      · rfl
      · rfl
      · intro z; rfl
    have hB : run (equality_check_resolved j) 3 ⟨11, 11, 0, r1⟩ =
        ⟨14, S - 2, 0, fun z => if z = S - 2 then 0 else r1 z⟩ := by
      rw [run_straight_fuel (equality_check_resolved j)
        [.at 0, .c .A .MminusOne .noJump, .c .M .D .noJump] []
        ⟨11, 11, 0, r1⟩ 3 rfl rfl (by decide)]
      have t0 : execStraight
          [.at 0, .c .A .MminusOne .noJump, .c .M .D .noJump]
          (⟨11, 11, 0, r1⟩ : Mach) =
          execStraight [.c .A .MminusOne .noJump, .c .M .D .noJump]
            (⟨12, 0, 0, r1⟩ : Mach) := rfl
      rw [t0]
      have := etail 0 (by omega) (by omega)
      rw [show execStraight [.c .A .MminusOne .noJump, .c .M .D .noJump]
          (⟨12, 0, 0, r1⟩ : Mach) =
        execStraight [.at 0, .c .A .MminusOne .noJump, .c .M .D .noJump]
          (⟨11, 10, 0, r1⟩ : Mach) from rfl, this]
    rw [show (6 : Nat) = 2 + (1 + 3) from rfl, run_add, run_add, h2,
      show run (equality_check_resolved j) 1 ⟨9, 11, 0, r1⟩ =
        step (equality_check_resolved j) ⟨9, 11, 0, r1⟩ from rfl, hjmp, hB]

/-- **C2 (amended).** `gt` is lowered with jump condition `JLT` and `lt`
with `JGT`, each applied to `D = (second pushed) − (first pushed)`; for
operand pairs whose difference fits the signed 16-bit range, executing the
emitted `gt` (resp. `lt`) assembly pushes all-ones exactly when the
first-pushed operand is strictly greater (resp. smaller) than the second.
(The claim's "for all pairs of 16-bit operands" fails when the
subtraction overflows — see the counterexample.) -/
theorem c2_gt_lt_subtraction (i : Nat) (fo : Option Fn)
    (x y S a0 d0 : Int) (r : Int → Int)
    (hS1 : 16 ≤ S) (hS2 : S ≤ 32767)
    (hx1 : -32768 ≤ x) (hx2 : x ≤ 32767)
    (hy1 : -32768 ≤ y) (hy2 : y ≤ 32767)
    (hno1 : -32768 ≤ y - x) (hno2 : y - x ≤ 32767)
    (hr0 : r 0 = S) (hrx : r (S - 2) = x) (hry : r (S - 1) = y) :
    Gt_JUMP = "JLT" ∧ Lt_JUMP = "JGT" ∧
    asm_code .gt i fo = .ok (EQUALITY_CHECK Gt_JUMP i) ∧
    asm_code .lt i fo = .ok (EQUALITY_CHECK Lt_JUMP i) ∧
    (equality_check_instrs .JLT 0).map printInstr = EQUALITY_CHECK Gt_JUMP 0 ∧
    (equality_check_instrs .JGT 0).map printInstr = EQUALITY_CHECK Lt_JUMP 0 ∧
    assemble (equality_check_instrs .JLT 0) =
      some (equality_check_resolved .JLT) ∧
    assemble (equality_check_instrs .JGT 0) =
      some (equality_check_resolved .JGT) ∧
    (run (equality_check_resolved .JLT) 13 ⟨0, a0, d0, r⟩).ram (S - 2) =
      (if x > y then -1 else 0) ∧
    (run (equality_check_resolved .JLT) 13 ⟨0, a0, d0, r⟩).ram 0 = S - 1 ∧
    (run (equality_check_resolved .JGT) 13 ⟨0, a0, d0, r⟩).ram (S - 2) =
      (if x < y then -1 else 0) ∧
    (run (equality_check_resolved .JGT) 13 ⟨0, a0, d0, r⟩).ram 0 = S - 1 := by
  refine ⟨rfl, rfl, rfl, rfl, (print_equality_check 0).2.1,
    (print_equality_check 0).2.2, rfl, rfl, ?_, ?_, ?_, ?_⟩ <;>
    rw [equality_check_exec _ S x y a0 d0 r hS1 hS2 hx1 hx2 hy1 hy2 hr0
      hrx hry]
  · show (if S - 2 = S - 2 then _ else _) = _
    rw [if_pos rfl, wrap_eq hno1 hno2]
    simp only [Jump.taken, decide_eq_true_eq]
    split_ifs with h1 h2 h2 <;> first | rfl | omega
  · show (if (0 : Int) = S - 2 then _ else if (0 : Int) = 0 then S - 1 else r 0) = _
    rw [if_neg (by omega), if_pos rfl]
  · show (if S - 2 = S - 2 then _ else _) = _
    rw [if_pos rfl, wrap_eq hno1 hno2]
    simp only [Jump.taken, decide_eq_true_eq]
    split_ifs with h1 h2 h2 <;> first | rfl | omega
  · show (if (0 : Int) = S - 2 then _ else if (0 : Int) = 0 then S - 1 else r 0) = _
    rw [if_neg (by omega), if_pos rfl]

/-- **C2, counterexample to the claim as stated.**  With first-pushed
operand `-1` (at address 256) and second-pushed operand `32767` (at 257),
both legal 16-bit words, the emitted `gt` code pushes all-ones (true)
although `-1 > 32767` is false: the 16-bit subtraction `32767 - (-1)`
wraps to `-32768`, taking the `JLT` branch. -/
theorem c2_gt_overflow_counterexample :
    assemble (equality_check_instrs .JLT 0) =
      some (equality_check_resolved .JLT) ∧
    (run (equality_check_resolved .JLT) 13
      ⟨0, 0, 0, fun z => if z = 0 then 258 else if z = 256 then -1
        else if z = 257 then 32767 else 0⟩).ram 256 = -1 ∧
    ¬ ((-1 : Int) > 32767) := by
  refine ⟨rfl, ?_, by decide⟩
  decide

/-- Witness for `c2_gt_lt_subtraction`: operands 5 then 4 at stack top 300;
`gt` pushes all-ones. -/
theorem c2_gt_lt_subtraction_witness :
    (run (equality_check_resolved .JLT) 13
      ⟨0, 0, 0, fun z => if z = 0 then 300 else if z = 298 then 5
        else if z = 299 then 4 else 0⟩).ram (300 - 2 : Int) = -1 := by
  have h := c2_gt_lt_subtraction 0 none 5 4 300 0 0
    (fun z => if z = 0 then 300 else if z = 298 then 5
      else if z = 299 then 4 else 0)
    (by decide) (by decide) (by decide) (by decide) (by decide) (by decide)
    (by decide) (by decide) (by decide) (by norm_num) (by norm_num)
  have h9 := h.2.2.2.2.2.2.2.2.1
  norm_num at h9 ⊢
  exact h9

/-! ## C1: the calling convention round trip

The program is `call f N; function f M; push constant V; return` — a call
to a function that immediately returns the fixed value `V` (its body being
the single push of `V`, never touching its arguments).  The call renders
at ordinal position 0.  Both labels (`CALL0`, `Ff`) resolve to address 42,
the first instruction after the call block. -/

def c1_instrs (N M V : Nat) : List Instr :=
  call_instrs 0 "f" N ++ function_instrs "f" M ++
  push_constant_instrs V ++ return_instrs

/-- Resolved `PUSH_D` (`SP` is address 0). -/
def PUSH_D_R : List RInstr :=
  [.at 0, .c .AM .MplusOne .noJump, .c .A .AminusOne .noJump,
   .c .M .D .noJump]

/-- Resolved `POP_D`. -/
def POP_D_R : List RInstr :=
  [.at 0, .c .AM .MminusOne .noJump, .c .D .M .noJump]

/-- Resolved `ZERO_LOCAL`. -/
def ZERO_LOCAL_R : List RInstr :=
  [.c .M .zero .noJump, .c .A .AplusOne .noJump]

/-- The call block of `c1_instrs`, resolved (42 instructions;
LCL/ARG/THIS/THAT are addresses 1-4, both labels resolve to 42). -/
def call_resolved (N : Nat) : List RInstr :=
  ([.at 42, .c .D .A .noJump] ++ PUSH_D_R) ++
  ([.at 1, .c .D .M .noJump] ++ PUSH_D_R) ++
  ([.at 2, .c .D .M .noJump] ++ PUSH_D_R) ++
  ([.at 3, .c .D .M .noJump] ++ PUSH_D_R) ++
  ([.at 4, .c .D .M .noJump] ++ PUSH_D_R) ++
  [.at (N + 5), .c .D .A .noJump, .at 0, .c .D .MminusD .noJump,
   .at 2, .c .M .D .noJump] ++
  [.at 0, .c .D .M .noJump, .at 1, .c .M .D .noJump] ++
  [.at 42, .c .noDest .zero .JMP]

/-- The function prologue of `c1_instrs`, resolved (5 + 2M instructions). -/
def function_resolved (M : Nat) : List RInstr :=
  [.at 0, .c .A .M .noJump] ++
  (List.replicate M ZERO_LOCAL_R).flatten ++
  [.c .D .A .noJump, .at 0, .c .M .D .noJump]

/-- The push of the return value, resolved (6 instructions). -/
def push_constant_resolved (V : Nat) : List RInstr :=
  [.at V, .c .D .A .noJump] ++ PUSH_D_R

/-- The return block, resolved (50 instructions; R13-R15 are 13-15). -/
def return_resolved : List RInstr :=
  (POP_D_R ++ [.at 15, .c .M .D .noJump]) ++
  [.at 2, .c .D .M .noJump, .at 14, .c .M .D .noJump] ++
  [.at 1, .c .D .M .noJump, .at 0, .c .M .D .noJump] ++
  (POP_D_R ++ [.at 4, .c .M .D .noJump]) ++
  (POP_D_R ++ [.at 3, .c .M .D .noJump]) ++
  (POP_D_R ++ [.at 2, .c .M .D .noJump]) ++
  (POP_D_R ++ [.at 1, .c .M .D .noJump]) ++
  (POP_D_R ++ [.at 13, .c .M .D .noJump]) ++
  [.at 14, .c .D .M .noJump, .at 0, .c .M .DplusOne .noJump] ++
  [.at 15, .c .D .M .noJump, .at 0, .c .A .MminusOne .noJump,
   .c .M .D .noJump] ++
  [.at 13, .c .A .M .noJump, .c .noDest .zero .JMP]

def c1_resolved (N M V : Nat) : List RInstr :=
  call_resolved N ++ function_resolved M ++
  push_constant_resolved V ++ return_resolved

/-- Instructions (non-labels) contributed by a prefix. -/
def instrCount (xs : List Instr) : Nat :=
  (xs.filter (fun i => ! i.isLabel)).length

theorem labelTable_append (xs ys : List Instr) :
    ∀ k, labelTable (xs ++ ys) k =
      labelTable xs k ++ labelTable ys (k + instrCount xs) := by
  induction xs with
  | nil => intro k; simp [labelTable, instrCount]
  | cons x xs ih =>
    intro k
    cases x with
    | label s =>
      show (s, k) :: labelTable (xs ++ ys) k = _
      rw [ih k]
      simp [labelTable, instrCount, Instr.isLabel]
    | atNum n =>
      show labelTable (xs ++ ys) (k + 1) = _
      rw [ih (k + 1)]
      simp only [labelTable, instrCount, Instr.isLabel, List.filter_cons]
      norm_num
      congr 1
      omega
    | atSym s =>
      show labelTable (xs ++ ys) (k + 1) = _
      rw [ih (k + 1)]
      simp only [labelTable, instrCount, Instr.isLabel, List.filter_cons]
      norm_num
      congr 1
      omega
    | c d cmp j =>
      show labelTable (xs ++ ys) (k + 1) = _
      rw [ih (k + 1)]
      simp only [labelTable, instrCount, Instr.isLabel, List.filter_cons]
      norm_num
      congr 1
      omega

theorem labelTable_of_no_labels (xs : List Instr)
    (h : ∀ i ∈ xs, ¬ i.isLabel = true) : ∀ k, labelTable xs k = [] := by
  induction xs with
  | nil => intro k; rfl
  | cons x xs ih =>
    intro k
    cases x with
    | label s => exact absurd rfl (h _ (List.mem_cons_self _ _))
    | atNum n =>
      exact ih (fun i hi => h i (List.mem_cons_of_mem _ hi)) (k + 1)
    | atSym s =>
      exact ih (fun i hi => h i (List.mem_cons_of_mem _ hi)) (k + 1)
    | c d cmp j =>
      exact ih (fun i hi => h i (List.mem_cons_of_mem _ hi)) (k + 1)

theorem isLabel_elim (i : Instr) (h : i.isLabel = true) :
    ∃ s, i = .label s := by
  cases i
  case label s => exact ⟨s, rfl⟩
  all_goals simp [Instr.isLabel] at h

theorem instrCount_append (xs ys : List Instr) :
    instrCount (xs ++ ys) = instrCount xs + instrCount ys := by
  simp [instrCount, List.filter_append]

theorem no_label_in_zero_locals (M : Nat) (s : String) :
    Instr.label s ∉ (List.replicate M
      [Instr.c .M .zero .noJump, Instr.c .A .AplusOne .noJump]).flatten := by
  intro h
  rw [List.mem_flatten] at h
  obtain ⟨l, hl, hmem⟩ := h
  rw [List.mem_replicate] at hl
  rw [hl.2] at hmem
  simp at hmem

theorem labelTable_c1 (N M V : Nat) :
    labelTable (c1_instrs N M V) 0 = [("CALL0", 42), ("Ff", 42)] := by
  rw [c1_instrs, labelTable_append, labelTable_append, labelTable_append]
  have hcall : labelTable (call_instrs 0 "f" N) 0 = [("CALL0", 42)] := rfl
  have hic : instrCount (call_instrs 0 "f" N) = 42 := rfl
  have hfn : labelTable (function_instrs "f" M) 42 =
      ("Ff", 42) :: labelTable
        ([Instr.atSym "SP", Instr.c .A .M .noJump] ++
          (List.replicate M
            [Instr.c .M .zero .noJump, Instr.c .A .AplusOne .noJump]).flatten ++
          [Instr.c .D .A .noJump, Instr.atSym "SP", Instr.c .M .D .noJump]) 42 := rfl
  have hzl : labelTable
      ([Instr.atSym "SP", Instr.c .A .M .noJump] ++
        (List.replicate M
          [Instr.c .M .zero .noJump, Instr.c .A .AplusOne .noJump]).flatten ++
        [Instr.c .D .A .noJump, Instr.atSym "SP", Instr.c .M .D .noJump]) 42 = [] := by
    apply labelTable_of_no_labels
    intro i hi hl
    obtain ⟨s, rfl⟩ := isLabel_elim i hl
    rcases List.mem_append.mp hi with h | h
    · rcases List.mem_append.mp h with h2 | h2
      · simp at h2
      · exact no_label_in_zero_locals M s h2
    · simp at h
  have hpush : labelTable (push_constant_instrs V)
      (42 + instrCount (function_instrs "f" M)) = [] := by
    apply labelTable_of_no_labels
    intro i hi hl
    obtain ⟨s, rfl⟩ := isLabel_elim i hl
    simp [push_constant_instrs, PUSH_D_instrs, List.mem_append,
      List.mem_cons] at hi
  have hret : labelTable return_instrs
      (42 + instrCount (function_instrs "f" M) +
        instrCount (push_constant_instrs V)) = [] := by
    apply labelTable_of_no_labels
    intro i hi hl
    obtain ⟨s, rfl⟩ := isLabel_elim i hl
    simp [return_instrs, POP_D_instrs, SAVED_VARS, List.mem_append,
      List.mem_cons, List.mem_flatten, List.mem_map] at hi
  rw [hcall, instrCount_append, instrCount_append, instrCount_append, hic]
  simp only [Nat.zero_add]
  rw [hfn, hzl, hpush, hret]
  simp

theorem mapM_resolve_append (tab : List (String × Nat)) (xs ys : List Instr)
    (rx ry : List RInstr) (hx : xs.mapM (resolveInstr tab) = some rx)
    (hy : ys.mapM (resolveInstr tab) = some ry) :
    (xs ++ ys).mapM (resolveInstr tab) = some (rx ++ ry) := by
  rw [List.mapM_append, hx, hy]
  rfl

theorem filter_zero_locals (M : Nat) :
    ((List.replicate M
      [Instr.c .M .zero .noJump, Instr.c .A .AplusOne .noJump]).flatten).filter
        (fun i => !i.isLabel) =
    (List.replicate M
      [Instr.c .M .zero .noJump, Instr.c .A .AplusOne .noJump]).flatten := by
  apply List.filter_eq_self.mpr
  intro i hi
  rw [List.mem_flatten] at hi
  obtain ⟨l, hl, hmem⟩ := hi
  rw [List.mem_replicate] at hl
  rw [hl.2] at hmem
  fin_cases hmem <;> rfl

theorem mapM_resolve_zero_locals (tab : List (String × Nat)) : ∀ M : Nat,
    ((List.replicate M
      [Instr.c .M .zero .noJump, Instr.c .A .AplusOne .noJump]).flatten).mapM
        (resolveInstr tab) =
    some ((List.replicate M ZERO_LOCAL_R).flatten) := by
  intro M
  induction M with
  | zero => rfl
  | succ M ih =>
    rw [List.replicate_succ, List.flatten_cons, List.replicate_succ,
      List.flatten_cons]
    exact mapM_resolve_append tab _ _ _ _ rfl ih

/-- The claim-C1 program assembles to its resolved form. -/
theorem assemble_c1 (N M V : Nat) :
    assemble (c1_instrs N M V) = some (c1_resolved N M V) := by
  rw [assemble, labelTable_c1, c1_instrs,
    List.filter_append, List.filter_append, List.filter_append,
    function_instrs, List.filter_append, List.filter_append,
    filter_zero_locals]
  rw [show List.filter (fun i => !i.isLabel)
      [Instr.label ("F" ++ "f"), Instr.atSym "SP",
       Instr.c .A .M .noJump] =
    [Instr.atSym "SP", Instr.c .A .M .noJump] from rfl]
  rw [c1_resolved, function_resolved]
  apply mapM_resolve_append
  · apply mapM_resolve_append
    · apply mapM_resolve_append
      · exact rfl
      · apply mapM_resolve_append
        · exact mapM_resolve_append _ _ _ _ _ rfl
            (mapM_resolve_zero_locals _ M)
        · exact rfl
    · exact rfl
  · exact rfl

/-! ### Straight-line building blocks of the calling convention -/

theorem exec_push_d (s : Mach) (sp : Int) (hsp : s.ram 0 = sp)
    (h1 : 0 ≤ sp) (h2 : sp + 1 ≤ 32767)
    (hd1 : -32768 ≤ s.d) (hd2 : s.d ≤ 32767) :
    execStraight PUSH_D_R s =
      ⟨s.pc + 4, sp, s.d,
       fun z => if z = sp then s.d else if z = 0 then sp + 1 else s.ram z⟩ := by
  have e0 : stepInstr (.at 0) s = ⟨s.pc + 1, 0, s.d, s.ram⟩ := rfl
  have e1 : stepInstr (.c .AM .MplusOne .noJump)
      (⟨s.pc + 1, 0, s.d, s.ram⟩ : Mach) =
      ⟨s.pc + 2, sp + 1, s.d, fun z => if z = 0 then sp + 1 else s.ram z⟩ := by
    apply Mach.ext1
    · rfl
    · show wrap16 (s.ram 0 + 1) = sp + 1
      rw [hsp, wrap_eq (by omega) (by omega)]
    · rfl
    · intro z
      show (if z = 0 then wrap16 (s.ram 0 + 1) else s.ram z) = _
      rw [hsp, wrap_eq (by omega) (by omega)]
  have e2 : stepInstr (.c .A .AminusOne .noJump)
      (⟨s.pc + 2, sp + 1, s.d, fun z => if z = 0 then sp + 1 else s.ram z⟩ : Mach) =
      ⟨s.pc + 3, sp, s.d, fun z => if z = 0 then sp + 1 else s.ram z⟩ := by
    apply Mach.ext1
    · rfl
    · show wrap16 (sp + 1 - 1) = sp
      rw [wrap_eq (by omega) (by omega)]
      omega
    · rfl
    · intro z; rfl
  have e3 : stepInstr (.c .M .D .noJump)
      (⟨s.pc + 3, sp, s.d, fun z => if z = 0 then sp + 1 else s.ram z⟩ : Mach) =
      ⟨s.pc + 4, sp, s.d,
       fun z => if z = sp then s.d
                else if z = 0 then sp + 1 else s.ram z⟩ := by
    apply Mach.ext1
    · rfl
    · rfl
    · rfl
    · intro z
      show (if z = sp then wrap16 s.d else if z = 0 then sp + 1 else s.ram z) = _
      rw [wrap_eq (by omega) (by omega)]
  show execStraight PUSH_D_R s = _
  simp only [PUSH_D_R, execStraight]
  rw [e0, e1, e2, e3]

theorem exec_load_const (k : Nat) (s : Mach) (hk : k ≤ 32767) :
    execStraight [.at k, .c .D .A .noJump] s =
      ⟨s.pc + 2, (k : Int), (k : Int), s.ram⟩ := by
  have e0 : stepInstr (.at k) s = ⟨s.pc + 1, (k : Int), s.d, s.ram⟩ := rfl
  have e1 : stepInstr (.c .D .A .noJump)
      (⟨s.pc + 1, (k : Int), s.d, s.ram⟩ : Mach) =
      ⟨s.pc + 2, (k : Int), (k : Int), s.ram⟩ := by
    apply Mach.ext1
    · rfl
    · rfl
    · show wrap16 (k : Int) = (k : Int)
      rw [wrap_eq (by omega) (by omega)]
    · intro z; rfl
  simp only [execStraight]
  rw [e0, e1]

theorem exec_load_mem (addr : Nat) (v : Int) (s : Mach)
    (hv : s.ram addr = v) (h1 : -32768 ≤ v) (h2 : v ≤ 32767) :
    execStraight [.at addr, .c .D .M .noJump] s =
      ⟨s.pc + 2, (addr : Int), v, s.ram⟩ := by
  have e0 : stepInstr (.at addr) s = ⟨s.pc + 1, (addr : Int), s.d, s.ram⟩ := rfl
  have e1 : stepInstr (.c .D .M .noJump)
      (⟨s.pc + 1, (addr : Int), s.d, s.ram⟩ : Mach) =
      ⟨s.pc + 2, (addr : Int), v, s.ram⟩ := by
    apply Mach.ext1
    · rfl
    · rfl
    · show wrap16 (s.ram addr) = v
      rw [hv, wrap_eq (by omega) (by omega)]
    · intro z; rfl
  simp only [execStraight]
  rw [e0, e1]

theorem exec_store_d (addr : Nat) (s : Mach)
    (h1 : -32768 ≤ s.d) (h2 : s.d ≤ 32767) :
    execStraight [.at addr, .c .M .D .noJump] s =
      ⟨s.pc + 2, (addr : Int), s.d,
       fun z => if z = addr then s.d else s.ram z⟩ := by
  have e0 : stepInstr (.at addr) s = ⟨s.pc + 1, (addr : Int), s.d, s.ram⟩ := rfl
  have e1 : stepInstr (.c .M .D .noJump)
      (⟨s.pc + 1, (addr : Int), s.d, s.ram⟩ : Mach) =
      ⟨s.pc + 2, (addr : Int), s.d,
       fun z => if z = addr then s.d else s.ram z⟩ := by
    apply Mach.ext1
    · rfl
    · rfl
    · rfl
    · intro z
      show (if z = (addr : Int) then wrap16 s.d else s.ram z) = _
      rw [wrap_eq (by omega) (by omega)]
  simp only [execStraight]
  rw [e0, e1]

theorem exec_pop_d (s : Mach) (sp v : Int) (hsp : s.ram 0 = sp)
    (h1 : 1 ≤ sp - 1) (h2 : sp - 1 ≤ 32767)
    (hv : s.ram (sp - 1) = v) (hv1 : -32768 ≤ v) (hv2 : v ≤ 32767) :
    execStraight POP_D_R s =
      ⟨s.pc + 3, sp - 1, v, fun z => if z = 0 then sp - 1 else s.ram z⟩ := by
  have e0 : stepInstr (.at 0) s = ⟨s.pc + 1, 0, s.d, s.ram⟩ := rfl
  have e1 : stepInstr (.c .AM .MminusOne .noJump)
      (⟨s.pc + 1, 0, s.d, s.ram⟩ : Mach) =
      ⟨s.pc + 2, sp - 1, s.d, fun z => if z = 0 then sp - 1 else s.ram z⟩ := by
    apply Mach.ext1
    · rfl
    · show wrap16 (s.ram 0 - 1) = sp - 1
      rw [hsp, wrap_eq (by omega) (by omega)]
    · rfl
    · intro z
      show (if z = 0 then wrap16 (s.ram 0 - 1) else s.ram z) = _
      rw [hsp, wrap_eq (by omega) (by omega)]
  have e2 : stepInstr (.c .D .M .noJump)
      (⟨s.pc + 2, sp - 1, s.d,
        fun z => if z = 0 then sp - 1 else s.ram z⟩ : Mach) =
      ⟨s.pc + 3, sp - 1, v, fun z => if z = 0 then sp - 1 else s.ram z⟩ := by
    apply Mach.ext1
    · rfl
    · rfl
    · show wrap16 (if sp - 1 = 0 then sp - 1 else s.ram (sp - 1)) = v
      rw [if_neg (by omega), hv, wrap_eq (by omega) (by omega)]
    · intro z; rfl
  simp only [POP_D_R, execStraight]
  rw [e0, e1, e2]

theorem exec_zero_locals : ∀ (M : Nat) (s : Mach),
    0 ≤ s.a → s.a + M ≤ 32767 →
    execStraight (List.replicate M ZERO_LOCAL_R).flatten s =
      ⟨s.pc + 2 * M, s.a + M, s.d,
       fun z => if s.a ≤ z ∧ z < s.a + M then 0 else s.ram z⟩ := by
  intro M
  induction M with
  | zero =>
    intro s _ _
    apply Mach.ext1
    · rfl
    · show s.a = s.a + ((0 : Nat) : Int)
      omega
    · rfl
    · intro z
      show s.ram z = if s.a ≤ z ∧ z < s.a + ((0 : Nat) : Int) then 0 else s.ram z
      rw [if_neg (by omega)]
  | succ M ih =>
    intro s ha1 ha2
    rw [List.replicate_succ, List.flatten_cons, execStraight_append]
    have e0 : stepInstr (.c .M .zero .noJump) s =
        ⟨s.pc + 1, s.a, s.d, fun z => if z = s.a then 0 else s.ram z⟩ := by
      apply Mach.ext1
      · rfl
      · rfl
      · rfl
      · intro z
        show (if z = s.a then wrap16 0 else s.ram z) = _
        rw [wrap_eq (by omega) (by omega)]
    have e1 : stepInstr (.c .A .AplusOne .noJump)
        (⟨s.pc + 1, s.a, s.d, fun z => if z = s.a then 0 else s.ram z⟩ : Mach) =
        ⟨s.pc + 2, s.a + 1, s.d, fun z => if z = s.a then 0 else s.ram z⟩ := by
      apply Mach.ext1
      · rfl
      · show wrap16 (s.a + 1) = s.a + 1
        rw [wrap_eq (by omega) (by omega)]
      · rfl
      · intro z; rfl
    have hfirst : execStraight ZERO_LOCAL_R s =
        ⟨s.pc + 2, s.a + 1, s.d, fun z => if z = s.a then 0 else s.ram z⟩ := by
      simp only [ZERO_LOCAL_R, execStraight]
      rw [e0, e1]
    rw [hfirst,
      ih ⟨s.pc + 2, s.a + 1, s.d, fun z => if z = s.a then 0 else s.ram z⟩
        (by show (0 : Int) ≤ s.a + 1; omega)
        (by show s.a + 1 + (M : Int) ≤ 32767; push_cast at ha2 ⊢; omega)]
    apply Mach.ext1
    · show s.pc + 2 + 2 * M = s.pc + 2 * (M + 1)
      omega
    · show s.a + 1 + (M : Int) = s.a + ((M : Nat) + 1 : Nat)
      push_cast
      omega
    · rfl
    · intro z
      show (if s.a + 1 ≤ z ∧ z < s.a + 1 + (M : Int) then 0
            else if z = s.a then 0 else s.ram z) =
           (if s.a ≤ z ∧ z < s.a + (((M : Nat) + 1 : Nat) : Int) then 0
            else s.ram z)
      push_cast
      split_ifs <;> first | rfl | omega

/-! ### The phases of the claim-C1 program -/

/-- RAM after the call block: return address and the caller's
LCL/ARG/THIS/THAT saved at `S..S+4`, `ARG = S - N`, `LCL = SP = S + 5`. -/
def ramA (r : Int → Int) (S N L G T H : Int) : Int → Int := fun z =>
  if z = 1 then S + 5
  else if z = 2 then S - N
  else if z = 0 then S + 5
  else if z = S then 42
  else if z = S + 1 then L
  else if z = S + 2 then G
  else if z = S + 3 then T
  else if z = S + 4 then H
  else r z

theorem forall_fallsThrough_of_all (l : List RInstr)
    (h : l.all RInstr.fallsThrough = true) :
    ∀ i ∈ l, i.fallsThrough = true := by
  intro i hi
  exact List.all_eq_true.mp h i hi

set_option maxHeartbeats 2000000 in
theorem c1_phase_call (N M V : Nat) (S L G T H a0 d0 : Int) (r : Int → Int)
    (hSN : 16 + (N : Int) ≤ S) (hSM : S + (M : Int) + 6 ≤ 32767)
    (hL1 : -32768 ≤ L) (hL2 : L ≤ 32767)
    (hG1 : -32768 ≤ G) (hG2 : G ≤ 32767)
    (hT1 : -32768 ≤ T) (hT2 : T ≤ 32767)
    (hH1 : -32768 ≤ H) (hH2 : H ≤ 32767)
    (hr0 : r 0 = S) (hr1 : r 1 = L) (hr2 : r 2 = G) (hr3 : r 3 = T)
    (hr4 : r 4 = H) :
    run (c1_resolved N M V) 42 ⟨0, a0, d0, r⟩ =
      ⟨42, 42, S + 5, ramA r S N L G T H⟩ := by
  have hM0 : (0 : Int) ≤ (M : Int) := by positivity
  rw [show (42 : Nat) = 41 + 1 from rfl, run_add]
  set rA2 : Int → Int :=
    fun z => if z = S then 42 else if z = 0 then S + 1 else r z with hrA2
  set rA3 : Int → Int :=
    fun z => if z = S + 1 then L else if z = 0 then S + 2 else rA2 z with hrA3
  set rA4 : Int → Int :=
    fun z => if z = S + 2 then G else if z = 0 then S + 3 else rA3 z with hrA4
  set rA5 : Int → Int :=
    fun z => if z = S + 3 then T else if z = 0 then S + 4 else rA4 z with hrA5
  set rA6 : Int → Int :=
    fun z => if z = S + 4 then H else if z = 0 then S + 5 else rA5 z with hrA6
  set rA7 : Int → Int := fun z => if z = 2 then S - N else rA6 z with hrA7
  set rA8 : Int → Int := fun z => if z = 1 then S + 5 else rA7 z with hrA8
  have hv1 : rA2 1 = L := by
    simp only [hrA2]; split_ifs <;> omega
  have hv2 : rA3 2 = G := by
    simp only [hrA3, hrA2]; split_ifs <;> omega
  have hv3 : rA4 3 = T := by
    simp only [hrA4, hrA3, hrA2]; split_ifs <;> omega
  have hv4 : rA5 4 = H := by
    simp only [hrA5, hrA4, hrA3, hrA2]; split_ifs <;> omega
  have hsp2 : rA2 0 = S + 1 := by
    simp only [hrA2]; split_ifs <;> omega
  have hsp3 : rA3 0 = S + 2 := by
    simp only [hrA3, hrA2]; split_ifs <;> omega
  have hsp4 : rA4 0 = S + 3 := by
    simp only [hrA4, hrA3, hrA2]; split_ifs <;> omega
  have hsp5 : rA5 0 = S + 4 := by
    simp only [hrA5, hrA4, hrA3, hrA2]; split_ifs <;> omega
  have hsp6 : rA6 0 = S + 5 := by
    simp only [hrA6, hrA5, hrA4, hrA3, hrA2]; split_ifs <;> omega
  have hsp7 : rA7 0 = S + 5 := by
    simp only [hrA7]; rw [if_neg (by omega)]; exact hsp6
  have hc1 : execStraight [.at 42, .c .D .A .noJump]
      (⟨0, a0, d0, r⟩ : Mach) = ⟨2, 42, 42, r⟩ := by
    rw [exec_load_const 42 _ (by norm_num)]
    rfl
  have hc2 : execStraight PUSH_D_R (⟨2, 42, 42, r⟩ : Mach) =
      ⟨6, S, 42, rA2⟩ := by
    rw [exec_push_d ⟨2, 42, 42, r⟩ S hr0 (by omega) (by omega)
      (by show (-32768 : Int) ≤ 42; norm_num)
      (by show (42 : Int) ≤ 32767; norm_num)]
  have hc3 : execStraight [.at 1, .c .D .M .noJump]
      (⟨6, S, 42, rA2⟩ : Mach) = ⟨8, 1, L, rA2⟩ := by
    rw [exec_load_mem 1 L ⟨6, S, 42, rA2⟩ hv1 hL1 hL2]
    rfl
  have hc4 : execStraight PUSH_D_R (⟨8, 1, L, rA2⟩ : Mach) =
      ⟨12, S + 1, L, rA3⟩ := by
    rw [exec_push_d ⟨8, 1, L, rA2⟩ (S + 1) hsp2 (by omega) (by omega) hL1 hL2]
    refine Mach.ext1 rfl rfl rfl ?_
    intro z
    simp only [hrA3]
    split_ifs <;> first | rfl | omega
  have hc5 : execStraight [.at 2, .c .D .M .noJump]
      (⟨12, S + 1, L, rA3⟩ : Mach) = ⟨14, 2, G, rA3⟩ := by
    rw [exec_load_mem 2 G ⟨12, S + 1, L, rA3⟩ hv2 hG1 hG2]
    rfl
  have hc6 : execStraight PUSH_D_R (⟨14, 2, G, rA3⟩ : Mach) =
      ⟨18, S + 2, G, rA4⟩ := by
    rw [exec_push_d ⟨14, 2, G, rA3⟩ (S + 2) hsp3 (by omega) (by omega) hG1 hG2]
    refine Mach.ext1 rfl rfl rfl ?_
    intro z
    simp only [hrA4]
    split_ifs <;> first | rfl | omega
  have hc7 : execStraight [.at 3, .c .D .M .noJump]
      (⟨18, S + 2, G, rA4⟩ : Mach) = ⟨20, 3, T, rA4⟩ := by
    rw [exec_load_mem 3 T ⟨18, S + 2, G, rA4⟩ hv3 hT1 hT2]
    rfl
  have hc8 : execStraight PUSH_D_R (⟨20, 3, T, rA4⟩ : Mach) =
      ⟨24, S + 3, T, rA5⟩ := by
    rw [exec_push_d ⟨20, 3, T, rA4⟩ (S + 3) hsp4 (by omega) (by omega) hT1 hT2]
    refine Mach.ext1 rfl rfl rfl ?_
    intro z
    simp only [hrA5]
    split_ifs <;> first | rfl | omega
  have hc9 : execStraight [.at 4, .c .D .M .noJump]
      (⟨24, S + 3, T, rA5⟩ : Mach) = ⟨26, 4, H, rA5⟩ := by
    rw [exec_load_mem 4 H ⟨24, S + 3, T, rA5⟩ hv4 hH1 hH2]
    rfl
  have hc10 : execStraight PUSH_D_R (⟨26, 4, H, rA5⟩ : Mach) =
      ⟨30, S + 4, H, rA6⟩ := by
    rw [exec_push_d ⟨26, 4, H, rA5⟩ (S + 4) hsp5 (by omega) (by omega) hH1 hH2]
    refine Mach.ext1 rfl rfl rfl ?_
    intro z
    simp only [hrA6]
    split_ifs <;> first | rfl | omega
  have hc11 : execStraight [.at (N + 5), .c .D .A .noJump]
      (⟨30, S + 4, H, rA6⟩ : Mach) = ⟨32, ((N : Int) + 5), ((N : Int) + 5), rA6⟩ := by
    rw [exec_load_const (N + 5) ⟨30, S + 4, H, rA6⟩ (by omega)]
    refine Mach.ext1 rfl (by push_cast; ring) (by push_cast; ring) ?_
    intro z; rfl
  have hc12 : execStraight [.at 0, .c .D .MminusD .noJump]
      (⟨32, ((N : Int) + 5), ((N : Int) + 5), rA6⟩ : Mach) =
      ⟨34, 0, S - N, rA6⟩ := by
    have st1 : stepInstr (.at 0)
        (⟨32, ((N : Int) + 5), ((N : Int) + 5), rA6⟩ : Mach) =
        ⟨33, 0, ((N : Int) + 5), rA6⟩ := rfl
    have st2 : stepInstr (.c .D .MminusD .noJump)
        (⟨33, 0, ((N : Int) + 5), rA6⟩ : Mach) = ⟨34, 0, S - N, rA6⟩ := by
      refine Mach.ext1 rfl rfl ?_ (fun z => rfl)
      show wrap16 (rA6 0 - ((N : Int) + 5)) = S - N
      rw [hsp6, show S + 5 - ((N : Int) + 5) = S - N by ring,
        wrap_eq (by omega) (by omega)]
    simp only [execStraight]
    rw [st1, st2]
  have hc13 : execStraight [.at 2, .c .M .D .noJump]
      (⟨34, 0, S - N, rA6⟩ : Mach) = ⟨36, 2, S - N, rA7⟩ := by
    rw [exec_store_d 2 ⟨34, 0, S - N, rA6⟩
      (by show (-32768 : Int) ≤ S - (N : Int); omega)
      (by show S - (N : Int) ≤ 32767; omega)]
    rfl
  have hc14 : execStraight [.at 0, .c .D .M .noJump]
      (⟨36, 2, S - N, rA7⟩ : Mach) = ⟨38, 0, S + 5, rA7⟩ := by
    rw [exec_load_mem 0 (S + 5) ⟨36, 2, S - N, rA7⟩ hsp7 (by omega) (by omega)]
    rfl
  have hc15 : execStraight [.at 1, .c .M .D .noJump]
      (⟨38, 0, S + 5, rA7⟩ : Mach) = ⟨40, 1, S + 5, rA8⟩ := by
    rw [exec_store_d 1 ⟨38, 0, S + 5, rA7⟩
      (by show (-32768 : Int) ≤ S + 5; omega)
      (by show S + 5 ≤ (32767 : Int); omega)]
    rfl
  have hc16 : execStraight ([.at 42] : List RInstr)
      (⟨40, 1, S + 5, rA8⟩ : Mach) = ⟨41, 42, S + 5, rA8⟩ := rfl
  have h41 : run (c1_resolved N M V) 41 ⟨0, a0, d0, r⟩ =
      ⟨41, 42, S + 5, rA8⟩ := by
    rw [run_straight_fuel (c1_resolved N M V)
      ([.at 42, .c .D .A .noJump] ++ PUSH_D_R ++
       [.at 1, .c .D .M .noJump] ++ PUSH_D_R ++
       [.at 2, .c .D .M .noJump] ++ PUSH_D_R ++
       [.at 3, .c .D .M .noJump] ++ PUSH_D_R ++
       [.at 4, .c .D .M .noJump] ++ PUSH_D_R ++
       [.at (N + 5), .c .D .A .noJump] ++
       [.at 0, .c .D .MminusD .noJump] ++
       [.at 2, .c .M .D .noJump] ++
       [.at 0, .c .D .M .noJump] ++
       [.at 1, .c .M .D .noJump] ++
       [.at 42])
      ([.c .noDest .zero .JMP] ++ function_resolved M ++
        push_constant_resolved V ++ return_resolved)
      ⟨0, a0, d0, r⟩ 41 (by rfl) (by rfl)
      (forall_fallsThrough_of_all _ (by rfl))]
    simp only [execStraight_append]
    rw [hc1, hc2, hc3, hc4, hc5, hc6, hc7, hc8, hc9, hc10, hc11, hc12,
      hc13, hc14, hc15, hc16]
  have hjmp : run (c1_resolved N M V) 1 ⟨41, 42, S + 5, rA8⟩ =
      ⟨42, 42, S + 5, rA8⟩ := rfl
  rw [h41, hjmp]
  refine Mach.ext1 rfl rfl rfl ?_
  intro z
  simp only [hrA8, hrA7, hrA6, hrA5, hrA4, hrA3, hrA2, ramA]
  split_ifs <;> first | rfl | omega

theorem call_resolved_length (N : Nat) : (call_resolved N).length = 42 := rfl

theorem function_resolved_length (M : Nat) :
    (function_resolved M).length = 5 + 2 * M := by
  simp only [function_resolved, ZERO_LOCAL_R, List.length_append,
    List.length_flatten, List.map_replicate, List.length_cons,
    List.length_nil, List.sum_replicate, smul_eq_mul]
  omega

set_option maxHeartbeats 1000000 in
theorem c1_phase_prologue (N M V : Nat) (S d0 : Int) (ram : Int → Int)
    (hram0 : ram 0 = S + 5)
    (hSN : 16 + (N : Int) ≤ S) (hSM : S + (M : Int) + 6 ≤ 32767) :
    run (c1_resolved N M V) (5 + 2 * M) ⟨42, 42, d0, ram⟩ =
      ⟨47 + 2 * M, 0, S + 5 + M,
       fun z => if z = 0 then S + 5 + M
                else if S + 5 ≤ z ∧ z < S + 5 + M then 0 else ram z⟩ := by
  have hM0 : (0 : Int) ≤ (M : Int) := by positivity
  have hdrop : (c1_resolved N M V).drop 42 =
      function_resolved M ++ (push_constant_resolved V ++ return_resolved) := by
    rw [c1_resolved, List.append_assoc, List.append_assoc]
    exact List.drop_left' (call_resolved_length N)
  have hft : ∀ i ∈ function_resolved M, i.fallsThrough = true := by
    intro i hi
    rw [function_resolved] at hi
    rcases List.mem_append.mp hi with h1 | h1
    · rcases List.mem_append.mp h1 with h2 | h2
      · fin_cases h2 <;> rfl
      · rw [List.mem_flatten] at h2
        obtain ⟨l, hl, hm⟩ := h2
        rw [List.mem_replicate] at hl
        rw [hl.2] at hm
        fin_cases hm <;> rfl
    · fin_cases h1 <;> rfl
  rw [run_straight_fuel (c1_resolved N M V) (function_resolved M)
    (push_constant_resolved V ++ return_resolved) ⟨42, 42, d0, ram⟩
    (5 + 2 * M) (function_resolved_length M) hdrop hft]
  have st1 : stepInstr (.at 0) (⟨42, 42, d0, ram⟩ : Mach) =
      ⟨43, 0, d0, ram⟩ := rfl
  have st2 : stepInstr (.c .A .M .noJump) (⟨43, 0, d0, ram⟩ : Mach) =
      ⟨44, S + 5, d0, ram⟩ := by
    refine Mach.ext1 rfl ?_ rfl (fun z => rfl)
    show wrap16 (ram 0) = S + 5
    rw [hram0, wrap_eq (by omega) (by omega)]
  have hzl : execStraight (List.replicate M ZERO_LOCAL_R).flatten
      (⟨44, S + 5, d0, ram⟩ : Mach) =
      ⟨44 + 2 * M, S + 5 + M, d0,
       fun z => if S + 5 ≤ z ∧ z < S + 5 + M then 0 else ram z⟩ := by
    rw [exec_zero_locals M ⟨44, S + 5, d0, ram⟩ (by show (0:Int) ≤ S + 5; omega)
      (by show S + 5 + (M : Int) ≤ 32767; omega)]
  have st3 : stepInstr (.c .D .A .noJump)
      (⟨44 + 2 * M, S + 5 + M, d0,
        fun z => if S + 5 ≤ z ∧ z < S + 5 + M then 0 else ram z⟩ : Mach) =
      ⟨44 + 2 * M + 1, S + 5 + M, S + 5 + M,
       fun z => if S + 5 ≤ z ∧ z < S + 5 + M then 0 else ram z⟩ := by
    refine Mach.ext1 rfl rfl ?_ (fun z => rfl)
    show wrap16 (S + 5 + M) = S + 5 + M
    rw [wrap_eq (by omega) (by omega)]
  have st4 : stepInstr (.at 0)
      (⟨44 + 2 * M + 1, S + 5 + M, S + 5 + M,
        fun z => if S + 5 ≤ z ∧ z < S + 5 + M then 0 else ram z⟩ : Mach) =
      ⟨44 + 2 * M + 2, 0, S + 5 + M,
       fun z => if S + 5 ≤ z ∧ z < S + 5 + M then 0 else ram z⟩ := rfl
  have st5 : stepInstr (.c .M .D .noJump)
      (⟨44 + 2 * M + 2, 0, S + 5 + M,
        fun z => if S + 5 ≤ z ∧ z < S + 5 + M then 0 else ram z⟩ : Mach) =
      ⟨44 + 2 * M + 3, 0, S + 5 + M,
       fun z => if z = 0 then S + 5 + M
                else if S + 5 ≤ z ∧ z < S + 5 + M then 0 else ram z⟩ := by
    refine Mach.ext1 rfl rfl rfl ?_
    intro z
    show (if z = 0 then wrap16 (S + 5 + M) else _) = _
    rw [wrap_eq (by omega) (by omega)]
  rw [function_resolved, execStraight_append, execStraight_append]
  show execStraight _ (execStraight _
    (execStraight [RInstr.at 0, RInstr.c .A .M .noJump] ⟨42, 42, d0, ram⟩)) = _
  rw [show execStraight [RInstr.at 0, RInstr.c .A .M .noJump]
      (⟨42, 42, d0, ram⟩ : Mach) = ⟨44, S + 5, d0, ram⟩ by
    simp only [execStraight]; rw [st1, st2]]
  rw [hzl]
  rw [show execStraight
      [RInstr.c .D .A .noJump, RInstr.at 0, RInstr.c .M .D .noJump]
      (⟨44 + 2 * M, S + 5 + M, d0,
        fun z => if S + 5 ≤ z ∧ z < S + 5 + M then 0 else ram z⟩ : Mach) =
      ⟨44 + 2 * M + 3, 0, S + 5 + M,
       fun z => if z = 0 then S + 5 + M
                else if S + 5 ≤ z ∧ z < S + 5 + M then 0 else ram z⟩ by
    simp only [execStraight]; rw [st3, st4, st5]]
  refine Mach.ext1 (by show 44 + 2 * M + 3 = 47 + 2 * M; omega) rfl rfl
    (fun z => rfl)

set_option maxHeartbeats 1000000 in
theorem c1_phase_push (N M V : Nat) (S a0 d0 : Int) (ram : Int → Int)
    (hram0 : ram 0 = S + 5 + M) (hV : V ≤ 32767)
    (hSN : 16 + (N : Int) ≤ S) (hSM : S + (M : Int) + 6 ≤ 32767) :
    run (c1_resolved N M V) 6 ⟨47 + 2 * M, a0, d0, ram⟩ =
      ⟨53 + 2 * M, S + 5 + M, (V : Int),
       fun z => if z = S + 5 + M then (V : Int)
                else if z = 0 then S + 5 + M + 1 else ram z⟩ := by
  have hM0 : (0 : Int) ≤ (M : Int) := by positivity
  have hlen2 : (call_resolved N ++ function_resolved M).length = 47 + 2 * M := by
    rw [List.length_append, call_resolved_length, function_resolved_length]
    omega
  have hdrop : (c1_resolved N M V).drop (47 + 2 * M) =
      push_constant_resolved V ++ return_resolved := by
    rw [c1_resolved, List.append_assoc]
    exact List.drop_left' hlen2
  rw [run_straight_fuel (c1_resolved N M V) (push_constant_resolved V)
    return_resolved ⟨47 + 2 * M, a0, d0, ram⟩ 6 rfl hdrop
    (forall_fallsThrough_of_all _ (by rfl))]
  rw [push_constant_resolved, execStraight_append]
  rw [show execStraight [RInstr.at V, RInstr.c .D .A .noJump]
      (⟨47 + 2 * M, a0, d0, ram⟩ : Mach) =
      ⟨47 + 2 * M + 2, (V : Int), (V : Int), ram⟩ by
    rw [exec_load_const V ⟨47 + 2 * M, a0, d0, ram⟩ hV]]
  rw [exec_push_d ⟨47 + 2 * M + 2, (V : Int), (V : Int), ram⟩ (S + 5 + M)
    hram0 (by omega) (by omega)
    (by show (-32768 : Int) ≤ (V : Int); omega)
    (by show (V : Int) ≤ 32767; omega)]
  refine Mach.ext1 (by show 47 + 2 * M + 2 + 4 = 53 + 2 * M; omega) rfl rfl ?_
  intro z
  show (if z = S + 5 + M then (V : Int)
        else if z = 0 then S + 5 + M + 1 else ram z) = _
  rfl

/-- RAM after the return block: arguments discarded, the return value `V`
at the new stack top `S - N`, the caller's LCL/ARG/THIS/THAT restored in
cells 1-4, and the scratch cells R13-R15 holding the return address, the
saved ARG and the return value. -/
def retRam (ram : Int → Int) (S N L G T H V : Int) : Int → Int := fun z =>
  if z = S - N then V
  else if z = 0 then S - N + 1
  else if z = 1 then L
  else if z = 2 then G
  else if z = 3 then T
  else if z = 4 then H
  else if z = 13 then 42
  else if z = 14 then S - N
  else if z = 15 then V
  else ram z

set_option maxHeartbeats 2000000 in
theorem c1_phase_return (N M V : Nat) (S L G T H a0 d0 : Int)
    (ram : Int → Int)
    (hram0 : ram 0 = S + 5 + M + 1)
    (hramV : ram (S + 5 + M) = (V : Int))
    (hram1 : ram 1 = S + 5) (hram2 : ram 2 = S - N)
    (hramS0 : ram S = 42) (hramS1 : ram (S + 1) = L)
    (hramS2 : ram (S + 2) = G) (hramS3 : ram (S + 3) = T)
    (hramS4 : ram (S + 4) = H)
    (hV : V ≤ 32767)
    (hSN : 16 + (N : Int) ≤ S) (hSM : S + (M : Int) + 6 ≤ 32767)
    (hL1 : -32768 ≤ L) (hL2 : L ≤ 32767)
    (hG1 : -32768 ≤ G) (hG2 : G ≤ 32767)
    (hT1 : -32768 ≤ T) (hT2 : T ≤ 32767)
    (hH1 : -32768 ≤ H) (hH2 : H ≤ 32767) :
    run (c1_resolved N M V) 50 ⟨53 + 2 * M, a0, d0, ram⟩ =
      ⟨42, 42, (V : Int), retRam ram S N L G T H V⟩ := by
  have hM0 : (0 : Int) ≤ (M : Int) := by positivity
  have hN0 : (0 : Int) ≤ (N : Int) := by positivity
  have hV0 : (0 : Int) ≤ (V : Int) := by positivity
  have hVr : (V : Int) ≤ 32767 := by omega
  have hlen3 : ((call_resolved N ++ function_resolved M) ++
      push_constant_resolved V).length = 53 + 2 * M := by
    rw [List.length_append, List.length_append, call_resolved_length,
      function_resolved_length,
      show (push_constant_resolved V).length = 6 from rfl]
    omega
  have hdrop : (c1_resolved N M V).drop (53 + 2 * M) = return_resolved := by
    rw [c1_resolved]
    exact List.drop_left' hlen3
  set rD1 : Int → Int := fun z => if z = 0 then S + 5 + M else ram z with hrD1
  set rD2 : Int → Int := fun z => if z = 15 then (V : Int) else rD1 z with hrD2
  set rD3 : Int → Int := fun z => if z = 14 then S - N else rD2 z with hrD3
  set rD4 : Int → Int := fun z => if z = 0 then S + 5 else rD3 z with hrD4
  set rD5 : Int → Int := fun z => if z = 0 then S + 4 else rD4 z with hrD5
  set rD6 : Int → Int := fun z => if z = 4 then H else rD5 z with hrD6
  set rD7 : Int → Int := fun z => if z = 0 then S + 3 else rD6 z with hrD7
  set rD8 : Int → Int := fun z => if z = 3 then T else rD7 z with hrD8
  set rD9 : Int → Int := fun z => if z = 0 then S + 2 else rD8 z with hrD9
  set rD10 : Int → Int := fun z => if z = 2 then G else rD9 z with hrD10
  set rD11 : Int → Int := fun z => if z = 0 then S + 1 else rD10 z with hrD11
  set rD12 : Int → Int := fun z => if z = 1 then L else rD11 z with hrD12
  set rD13 : Int → Int := fun z => if z = 0 then S else rD12 z with hrD13
  set rD14 : Int → Int := fun z => if z = 13 then 42 else rD13 z with hrD14
  set rD15 : Int → Int := fun z => if z = 0 then S - N + 1 else rD14 z with hrD15
  set rD16 : Int → Int :=
    fun z => if z = S - N then (V : Int) else rD15 z with hrD16
  set P : Nat := 53 + 2 * M with hP
  have hg1 : execStraight POP_D_R (⟨P, a0, d0, ram⟩ : Mach) =
      ⟨P + 3, S + 5 + M, (V : Int), rD1⟩ := by
    rw [exec_pop_d ⟨P, a0, d0, ram⟩ (S + 5 + M + 1) (V : Int) hram0
      (by omega) (by omega)
      (by rw [show S + 5 + (M : Int) + 1 - 1 = S + 5 + M by ring]
          exact hramV)
      (by omega) (by omega)]
    refine Mach.ext1 rfl
      (by show S + 5 + (M : Int) + 1 - 1 = S + 5 + (M : Int); ring) rfl ?_
    intro z
    simp only [hrD1]
    split_ifs <;> first | rfl | omega
  have hg2 : execStraight [.at 15, .c .M .D .noJump]
      (⟨P + 3, S + 5 + M, (V : Int), rD1⟩ : Mach) =
      ⟨P + 5, 15, (V : Int), rD2⟩ := by
    rw [exec_store_d 15 _ (by show (-32768 : Int) ≤ (V : Int); omega)
      (by show (V : Int) ≤ 32767; omega)]
    rfl
  have hv2 : rD2 2 = S - N := by
    simp only [hrD2, hrD1]; split_ifs <;> omega
  have hg3 : execStraight [.at 2, .c .D .M .noJump]
      (⟨P + 5, 15, (V : Int), rD2⟩ : Mach) =
      ⟨P + 7, 2, S - N, rD2⟩ := by
    rw [exec_load_mem 2 (S - N) _ hv2 (by omega) (by omega)]
    rfl
  have hg4 : execStraight [.at 14, .c .M .D .noJump]
      (⟨P + 7, 2, S - N, rD2⟩ : Mach) = ⟨P + 9, 14, S - N, rD3⟩ := by
    rw [exec_store_d 14 _ (by show (-32768 : Int) ≤ S - (N : Int); omega)
      (by show S - (N : Int) ≤ 32767; omega)]
    rfl
  have hv3 : rD3 1 = S + 5 := by
    simp only [hrD3, hrD2, hrD1]; split_ifs <;> omega
  have hg5 : execStraight [.at 1, .c .D .M .noJump]
      (⟨P + 9, 14, S - N, rD3⟩ : Mach) = ⟨P + 11, 1, S + 5, rD3⟩ := by
    rw [exec_load_mem 1 (S + 5) _ hv3 (by omega) (by omega)]
    rfl
  have hg6 : execStraight [.at 0, .c .M .D .noJump]
      (⟨P + 11, 1, S + 5, rD3⟩ : Mach) = ⟨P + 13, 0, S + 5, rD4⟩ := by
    rw [exec_store_d 0 _ (by show (-32768 : Int) ≤ S + 5; omega)
      (by show S + 5 ≤ (32767 : Int); omega)]
    rfl
  have hsp4 : rD4 0 = S + 5 := by
    simp only [hrD4]; split_ifs <;> omega
  have hv4 : rD4 (S + 5 - 1) = H := by
    rw [show S + 5 - 1 = S + 4 by ring]
    simp only [hrD4, hrD3, hrD2, hrD1]; split_ifs <;> omega
  have hg7 : execStraight POP_D_R (⟨P + 13, 0, S + 5, rD4⟩ : Mach) =
      ⟨P + 16, S + 4, H, rD5⟩ := by
    rw [exec_pop_d _ (S + 5) H hsp4 (by omega) (by omega) hv4 hH1 hH2]
    refine Mach.ext1 rfl (by show S + 5 - 1 = S + 4; ring) rfl ?_
    intro z
    simp only [hrD5]
    split_ifs <;> first | rfl | omega
  have hg8 : execStraight [.at 4, .c .M .D .noJump]
      (⟨P + 16, S + 4, H, rD5⟩ : Mach) = ⟨P + 18, 4, H, rD6⟩ := by
    rw [exec_store_d 4 _ hH1 hH2]
    rfl
  have hsp6 : rD6 0 = S + 4 := by
    simp only [hrD6, hrD5]; split_ifs <;> omega
  have hv6 : rD6 (S + 4 - 1) = T := by
    rw [show S + 4 - 1 = S + 3 by ring]
    simp only [hrD6, hrD5, hrD4, hrD3, hrD2, hrD1]; split_ifs <;> omega
  have hg9 : execStraight POP_D_R (⟨P + 18, 4, H, rD6⟩ : Mach) =
      ⟨P + 21, S + 3, T, rD7⟩ := by
    rw [exec_pop_d _ (S + 4) T hsp6 (by omega) (by omega) hv6 hT1 hT2]
    refine Mach.ext1 rfl (by show S + 4 - 1 = S + 3; ring) rfl ?_
    intro z
    simp only [hrD7]
    split_ifs <;> first | rfl | omega
  have hg10 : execStraight [.at 3, .c .M .D .noJump]
      (⟨P + 21, S + 3, T, rD7⟩ : Mach) = ⟨P + 23, 3, T, rD8⟩ := by
    rw [exec_store_d 3 _ hT1 hT2]
    rfl
  have hsp8 : rD8 0 = S + 3 := by
    simp only [hrD8, hrD7]; split_ifs <;> omega
  have hv8 : rD8 (S + 3 - 1) = G := by
    rw [show S + 3 - 1 = S + 2 by ring]
    simp only [hrD8, hrD7, hrD6, hrD5, hrD4, hrD3, hrD2, hrD1]
    split_ifs <;> omega
  have hg11 : execStraight POP_D_R (⟨P + 23, 3, T, rD8⟩ : Mach) =
      ⟨P + 26, S + 2, G, rD9⟩ := by
    rw [exec_pop_d _ (S + 3) G hsp8 (by omega) (by omega) hv8 hG1 hG2]
    refine Mach.ext1 rfl (by show S + 3 - 1 = S + 2; ring) rfl ?_
    intro z
    simp only [hrD9]
    split_ifs <;> first | rfl | omega
  have hg12 : execStraight [.at 2, .c .M .D .noJump]
      (⟨P + 26, S + 2, G, rD9⟩ : Mach) = ⟨P + 28, 2, G, rD10⟩ := by
    rw [exec_store_d 2 _ hG1 hG2]
    rfl
  have hsp10 : rD10 0 = S + 2 := by
    simp only [hrD10, hrD9]; split_ifs <;> omega
  have hv10 : rD10 (S + 2 - 1) = L := by
    rw [show S + 2 - 1 = S + 1 by ring]
    simp only [hrD10, hrD9, hrD8, hrD7, hrD6, hrD5, hrD4, hrD3, hrD2, hrD1]
    split_ifs <;> omega
  have hg13 : execStraight POP_D_R (⟨P + 28, 2, G, rD10⟩ : Mach) =
      ⟨P + 31, S + 1, L, rD11⟩ := by
    rw [exec_pop_d _ (S + 2) L hsp10 (by omega) (by omega) hv10 hL1 hL2]
    refine Mach.ext1 rfl (by show S + 2 - 1 = S + 1; ring) rfl ?_
    intro z
    simp only [hrD11]
    split_ifs <;> first | rfl | omega
  have hg14 : execStraight [.at 1, .c .M .D .noJump]
      (⟨P + 31, S + 1, L, rD11⟩ : Mach) = ⟨P + 33, 1, L, rD12⟩ := by
    rw [exec_store_d 1 _ hL1 hL2]
    rfl
  have hsp12 : rD12 0 = S + 1 := by
    simp only [hrD12, hrD11]; split_ifs <;> omega
  have hv12 : rD12 (S + 1 - 1) = 42 := by
    rw [show S + 1 - 1 = S by ring]
    simp only [hrD12, hrD11, hrD10, hrD9, hrD8, hrD7, hrD6, hrD5, hrD4,
      hrD3, hrD2, hrD1]
    split_ifs <;> omega
  have hg15 : execStraight POP_D_R (⟨P + 33, 1, L, rD12⟩ : Mach) =
      ⟨P + 36, S, 42, rD13⟩ := by
    rw [exec_pop_d _ (S + 1) 42 hsp12 (by omega) (by omega) hv12
      (by norm_num) (by norm_num)]
    refine Mach.ext1 rfl (by show S + 1 - 1 = S; ring) rfl ?_
    intro z
    simp only [hrD13]
    split_ifs <;> first | rfl | omega
  have hg16 : execStraight [.at 13, .c .M .D .noJump]
      (⟨P + 36, S, 42, rD13⟩ : Mach) = ⟨P + 38, 13, 42, rD14⟩ := by
    rw [exec_store_d 13 _ (by show (-32768 : Int) ≤ 42; norm_num)
      (by show (42 : Int) ≤ 32767; norm_num)]
    rfl
  have hv14 : rD14 14 = S - N := by
    simp only [hrD14, hrD13, hrD12, hrD11, hrD10, hrD9, hrD8, hrD7, hrD6,
      hrD5, hrD4, hrD3]
    split_ifs <;> omega
  have hg17 : execStraight [.at 14, .c .D .M .noJump]
      (⟨P + 38, 13, 42, rD14⟩ : Mach) = ⟨P + 40, 14, S - N, rD14⟩ := by
    rw [exec_load_mem 14 (S - N) _ hv14 (by omega) (by omega)]
    rfl
  have hg18 : execStraight [.at 0, .c .M .DplusOne .noJump]
      (⟨P + 40, 14, S - N, rD14⟩ : Mach) = ⟨P + 42, 0, S - N, rD15⟩ := by
    have st1 : stepInstr (.at 0) (⟨P + 40, 14, S - N, rD14⟩ : Mach) =
        ⟨P + 41, 0, S - N, rD14⟩ := rfl
    have st2 : stepInstr (.c .M .DplusOne .noJump)
        (⟨P + 41, 0, S - N, rD14⟩ : Mach) = ⟨P + 42, 0, S - N, rD15⟩ := by
      refine Mach.ext1 rfl rfl rfl ?_
      intro z
      show (if z = 0 then wrap16 (S - N + 1) else rD14 z) = rD15 z
      rw [wrap_eq (by omega) (by omega)]
    simp only [execStraight]
    rw [st1, st2]
  have hv15 : rD15 15 = (V : Int) := by
    simp only [hrD15, hrD14, hrD13, hrD12, hrD11, hrD10, hrD9, hrD8, hrD7,
      hrD6, hrD5, hrD4, hrD3, hrD2]
    split_ifs <;> omega
  have hg19 : execStraight [.at 15, .c .D .M .noJump]
      (⟨P + 42, 0, S - N, rD15⟩ : Mach) = ⟨P + 44, 15, (V : Int), rD15⟩ := by
    rw [exec_load_mem 15 (V : Int) _ hv15 (by omega) (by omega)]
    rfl
  have hsp15 : rD15 0 = S - N + 1 := by
    simp only [hrD15]; split_ifs <;> omega
  have hg20 : execStraight [.at 0, .c .A .MminusOne .noJump]
      (⟨P + 44, 15, (V : Int), rD15⟩ : Mach) =
      ⟨P + 46, S - N, (V : Int), rD15⟩ := by
    have st1 : stepInstr (.at 0) (⟨P + 44, 15, (V : Int), rD15⟩ : Mach) =
        ⟨P + 45, 0, (V : Int), rD15⟩ := rfl
    have st2 : stepInstr (.c .A .MminusOne .noJump)
        (⟨P + 45, 0, (V : Int), rD15⟩ : Mach) =
        ⟨P + 46, S - N, (V : Int), rD15⟩ := by
      refine Mach.ext1 rfl ?_ rfl (fun z => rfl)
      show wrap16 (rD15 0 - 1) = S - N
      rw [hsp15, show S - (N : Int) + 1 - 1 = S - N by ring,
        wrap_eq (by omega) (by omega)]
    simp only [execStraight]
    rw [st1, st2]
  have hg21 : execStraight [.c .M .D .noJump]
      (⟨P + 46, S - N, (V : Int), rD15⟩ : Mach) =
      ⟨P + 47, S - N, (V : Int), rD16⟩ := by
    have st1 : stepInstr (.c .M .D .noJump)
        (⟨P + 46, S - N, (V : Int), rD15⟩ : Mach) =
        ⟨P + 47, S - N, (V : Int), rD16⟩ := by
      refine Mach.ext1 rfl rfl rfl ?_
      intro z
      show (if z = S - N then wrap16 (V : Int) else rD15 z) = rD16 z
      rw [wrap_eq (by omega) (by omega)]
    simp only [execStraight]
    rw [st1]
  have hv16 : rD16 13 = 42 := by
    simp only [hrD16, hrD15, hrD14]
    split_ifs <;> omega
  have hg22 : execStraight [.at 13, .c .A .M .noJump]
      (⟨P + 47, S - N, (V : Int), rD16⟩ : Mach) =
      ⟨P + 49, 42, (V : Int), rD16⟩ := by
    have st1 : stepInstr (.at 13)
        (⟨P + 47, S - N, (V : Int), rD16⟩ : Mach) =
        ⟨P + 48, 13, (V : Int), rD16⟩ := rfl
    have st2 : stepInstr (.c .A .M .noJump)
        (⟨P + 48, 13, (V : Int), rD16⟩ : Mach) =
        ⟨P + 49, 42, (V : Int), rD16⟩ := by
      refine Mach.ext1 rfl ?_ rfl (fun z => rfl)
      show wrap16 (rD16 13) = 42
      rw [hv16, wrap_eq (by norm_num) (by norm_num)]
    simp only [execStraight]
    rw [st1, st2]
  have hstraight : run (c1_resolved N M V) 49 ⟨53 + 2 * M, a0, d0, ram⟩ =
      ⟨P + 49, 42, (V : Int), rD16⟩ := by
    rw [run_straight_fuel (c1_resolved N M V)
      (POP_D_R ++ [.at 15, .c .M .D .noJump] ++
       [.at 2, .c .D .M .noJump] ++ [.at 14, .c .M .D .noJump] ++
       [.at 1, .c .D .M .noJump] ++ [.at 0, .c .M .D .noJump] ++
       POP_D_R ++ [.at 4, .c .M .D .noJump] ++
       POP_D_R ++ [.at 3, .c .M .D .noJump] ++
       POP_D_R ++ [.at 2, .c .M .D .noJump] ++
       POP_D_R ++ [.at 1, .c .M .D .noJump] ++
       POP_D_R ++ [.at 13, .c .M .D .noJump] ++
       [.at 14, .c .D .M .noJump] ++ [.at 0, .c .M .DplusOne .noJump] ++
       [.at 15, .c .D .M .noJump] ++ [.at 0, .c .A .MminusOne .noJump] ++
       [.c .M .D .noJump] ++ [.at 13, .c .A .M .noJump])
      [RInstr.c .noDest .zero .JMP] ⟨53 + 2 * M, a0, d0, ram⟩ 49 (by rfl)
      (by rw [hdrop]; decide) (by decide)]
    simp only [execStraight_append]
    rw [hg1, hg2, hg3, hg4, hg5, hg6, hg7, hg8, hg9, hg10, hg11, hg12,
      hg13, hg14, hg15, hg16, hg17, hg18, hg19, hg20, hg21, hg22]
  have hd2 : (c1_resolved N M V).drop (102 + 2 * M) =
      [RInstr.c .noDest .zero .JMP] := by
    have h1 := List.drop_drop 49 (53 + 2 * M) (c1_resolved N M V)
    rw [hdrop] at h1
    rw [show 53 + 2 * M + 49 = 102 + 2 * M by omega] at h1
    rw [← h1]
    rfl
  have hget : (c1_resolved N M V)[102 + 2 * M]? =
      some (RInstr.c .noDest .zero .JMP) := by
    have h0 := List.getElem?_drop (c1_resolved N M V) (102 + 2 * M) 0
    rw [hd2] at h0
    simpa using h0.symm
  have hjmp : run (c1_resolved N M V) 1 ⟨102 + 2 * M, 42, (V : Int), rD16⟩ =
      ⟨42, 42, (V : Int), rD16⟩ := by
    show step (c1_resolved N M V) _ = _
    rw [step]
    rw [show ((⟨102 + 2 * M, 42, (V : Int), rD16⟩ : Mach)).pc = 102 + 2 * M
      from rfl, hget]
    rfl
  rw [show (50 : Nat) = 49 + 1 from rfl, run_add, hstraight,
    show P + 49 = 102 + 2 * M by omega, hjmp]
  refine Mach.ext1 rfl rfl rfl ?_
  intro z
  simp only [hrD16, hrD15, hrD14, hrD13, hrD12, hrD11, hrD10, hrD9, hrD8,
    hrD7, hrD6, hrD5, hrD4, hrD3, hrD2, hrD1, retRam]
  split_ifs <;> first | rfl | omega

set_option maxHeartbeats 2000000 in
/-- Composition of the four phases: running the assembled claim-C1 program
from the reset state (with `SP = S` and the four segment registers holding
`L`, `G`, `T`, `H`) for `103 + 2M` steps returns to the continuation of the
call (address 42) with `SP = S - N + 1`, the return value `V` at the new
stack top `S - N`, and `LCL`, `ARG`, `THIS`, `THAT` restored. -/
theorem c1_exec (N M V : Nat) (S L G T H a0 d0 : Int) (r : Int → Int)
    (hV : V ≤ 32767)
    (hSN : 16 + (N : Int) ≤ S) (hSM : S + (M : Int) + 6 ≤ 32767)
    (hL1 : -32768 ≤ L) (hL2 : L ≤ 32767)
    (hG1 : -32768 ≤ G) (hG2 : G ≤ 32767)
    (hT1 : -32768 ≤ T) (hT2 : T ≤ 32767)
    (hH1 : -32768 ≤ H) (hH2 : H ≤ 32767)
    (hr0 : r 0 = S) (hr1 : r 1 = L) (hr2 : r 2 = G) (hr3 : r 3 = T)
    (hr4 : r 4 = H) :
    (run (c1_resolved N M V) (103 + 2 * M) ⟨0, a0, d0, r⟩).pc = 42 ∧
    (run (c1_resolved N M V) (103 + 2 * M) ⟨0, a0, d0, r⟩).ram 0 =
      S - N + 1 ∧
    (run (c1_resolved N M V) (103 + 2 * M) ⟨0, a0, d0, r⟩).ram (S - N) =
      (V : Int) ∧
    (run (c1_resolved N M V) (103 + 2 * M) ⟨0, a0, d0, r⟩).ram 1 = L ∧
    (run (c1_resolved N M V) (103 + 2 * M) ⟨0, a0, d0, r⟩).ram 2 = G ∧
    (run (c1_resolved N M V) (103 + 2 * M) ⟨0, a0, d0, r⟩).ram 3 = T ∧
    (run (c1_resolved N M V) (103 + 2 * M) ⟨0, a0, d0, r⟩).ram 4 = H := by
  have hM0 : (0 : Int) ≤ (M : Int) := by positivity
  have hN0 : (0 : Int) ≤ (N : Int) := by positivity
  rw [show 103 + 2 * M = 42 + ((5 + 2 * M) + (6 + 50)) by omega,
    run_add (c1_resolved N M V) 42 ((5 + 2 * M) + (6 + 50)),
    run_add (c1_resolved N M V) (5 + 2 * M) (6 + 50),
    run_add (c1_resolved N M V) 6 50,
    c1_phase_call N M V S L G T H a0 d0 r hSN hSM hL1 hL2 hG1 hG2 hT1 hT2
      hH1 hH2 hr0 hr1 hr2 hr3 hr4]
  have hA0 : ramA r S N L G T H 0 = S + 5 := by
    simp only [ramA]; split_ifs <;> omega
  rw [c1_phase_prologue N M V S (S + 5) (ramA r S N L G T H) hA0 hSN hSM]
  set ramB : Int → Int := fun z =>
    if z = 0 then S + 5 + (M : Int)
    else if S + 5 ≤ z ∧ z < S + 5 + (M : Int) then 0
    else ramA r S N L G T H z with hramB
  have hB0 : ramB 0 = S + 5 + (M : Int) := by
    rw [hramB]; norm_num
  rw [c1_phase_push N M V S 0 (S + 5 + (M : Int)) ramB hB0 hV hSN hSM]
  set ramC : Int → Int := fun z =>
    if z = S + 5 + (M : Int) then (V : Int)
    else if z = 0 then S + 5 + (M : Int) + 1
    else ramB z with hramC
  have hD0 : ramC 0 = S + 5 + (M : Int) + 1 := by
    simp only [hramC, hramB, ramA]; split_ifs <;> omega
  have hDV : ramC (S + 5 + (M : Int)) = (V : Int) := by
    simp only [hramC]; split_ifs <;> omega
  have hD1 : ramC 1 = S + 5 := by
    simp only [hramC, hramB, ramA]; split_ifs <;> omega
  have hD2 : ramC 2 = S - (N : Int) := by
    simp only [hramC, hramB, ramA]; split_ifs <;> omega
  have hDS0 : ramC S = 42 := by
    simp only [hramC, hramB, ramA]; split_ifs <;> omega
  have hDS1 : ramC (S + 1) = L := by
    simp only [hramC, hramB, ramA]; split_ifs <;> omega
  have hDS2 : ramC (S + 2) = G := by
    simp only [hramC, hramB, ramA]; split_ifs <;> omega
  have hDS3 : ramC (S + 3) = T := by
    simp only [hramC, hramB, ramA]; split_ifs <;> omega
  have hDS4 : ramC (S + 4) = H := by
    simp only [hramC, hramB, ramA]; split_ifs <;> omega
  rw [c1_phase_return N M V S L G T H (S + 5 + (M : Int)) (V : Int) ramC
    hD0 hDV hD1 hD2 hDS0 hDS1 hDS2 hDS3 hDS4 hV hSN hSM hL1 hL2 hG1 hG2
    hT1 hT2 hH1 hH2]
  refine ⟨rfl, ?_, ?_, ?_, ?_, ?_, ?_⟩ <;>
    · show retRam ramC S N L G T H V _ = _
      simp only [retRam]
      split_ifs <;> omega

/-- **C1.** Calling-convention round trip.  For a call with `N` declared
arguments (`call f N` at ordinal position 0, with `SP = S` and `LCL`, `ARG`,
`THIS`, `THAT` holding `L`, `G`, `T`, `H`) to a function with `M` declared
locals that immediately returns the fixed value `V` (`function f M; push
constant V; return`): the translator emits exactly the `Call.asm_code`,
`Function.asm_code`, push and `Return.asm_code` blocks (`vm.py` lines
461-475, 405-415, 65-71, 534-551), those lines assemble to the resolved
program, and running it on the target machine returns to the continuation of
the call with the stack exactly `N` slots shorter than before the call
(`SP = S - N + 1` where the `N` arguments occupied `S - N .. S - 1`), the
value `V` on top of the stack, and `LCL`, `ARG`, `THIS`, `THAT` restored to
`L`, `G`, `T`, `H`. -/
theorem c1_call_return_roundtrip (N M V : Nat) (S L G T H a0 d0 : Int)
    (r : Int → Int) (hV : V ≤ 32767)
    (hSN : 16 + (N : Int) ≤ S) (hSM : S + (M : Int) + 6 ≤ 32767)
    (hL1 : -32768 ≤ L) (hL2 : L ≤ 32767)
    (hG1 : -32768 ≤ G) (hG2 : G ≤ 32767)
    (hT1 : -32768 ≤ T) (hT2 : T ≤ 32767)
    (hH1 : -32768 ≤ H) (hH2 : H ≤ 32767)
    (hr0 : r 0 = S) (hr1 : r 1 = L) (hr2 : r 2 = G) (hr3 : r 3 = T)
    (hr4 : r 4 = H) :
    codeBlocks [.call "f" N, .function "f" M, .push .constant V "f", .ret] =
      .ok [("// " ++ strCmd (.call "f" N)) :: call_asm_code 0 "f" N,
           ("// " ++ strCmd (.function "f" M)) :: function_asm_code "f" M,
           ("// " ++ strCmd (.push .constant V "f")) ::
             (["@" ++ Nat.repr V, "D=A"] ++ PUSH_D),
           ("// " ++ strCmd .ret) :: return_asm_code] ∧
    (c1_instrs N M V).map printInstr =
      call_asm_code 0 "f" N ++ function_asm_code "f" M ++
      (["@" ++ Nat.repr V, "D=A"] ++ PUSH_D) ++ return_asm_code ∧
    assemble (c1_instrs N M V) = some (c1_resolved N M V) ∧
    (run (c1_resolved N M V) (103 + 2 * M) ⟨0, a0, d0, r⟩).pc = 42 ∧
    (run (c1_resolved N M V) (103 + 2 * M) ⟨0, a0, d0, r⟩).ram 0 =
      S - N + 1 ∧
    (run (c1_resolved N M V) (103 + 2 * M) ⟨0, a0, d0, r⟩).ram (S - N) =
      (V : Int) ∧
    (run (c1_resolved N M V) (103 + 2 * M) ⟨0, a0, d0, r⟩).ram 1 = L ∧
    (run (c1_resolved N M V) (103 + 2 * M) ⟨0, a0, d0, r⟩).ram 2 = G ∧
    (run (c1_resolved N M V) (103 + 2 * M) ⟨0, a0, d0, r⟩).ram 3 = T ∧
    (run (c1_resolved N M V) (103 + 2 * M) ⟨0, a0, d0, r⟩).ram 4 = H := by
  obtain ⟨hpc, h0, htop, h1, h2, h3, h4⟩ :=
    c1_exec N M V S L G T H a0 d0 r hV hSN hSM hL1 hL2 hG1 hG2 hT1 hT2
      hH1 hH2 hr0 hr1 hr2 hr3 hr4
  refine ⟨rfl, ?_, assemble_c1 N M V, hpc, h0, htop, h1, h2, h3, h4⟩
  rw [c1_instrs, List.map_append, List.map_append, List.map_append,
    print_call, print_function, print_push_constant, print_return]

set_option maxRecDepth 8192 in
/-- Witness for C1 at `N = 2`, `M = 3`, `V = 7`, `S = 300`,
`(L, G, T, H) = (1000, 2000, 3000, 4000)`. -/
theorem c1_call_return_roundtrip_witness :
    codeBlocks [.call "f" 2, .function "f" 3, .push .constant 7 "f", .ret] =
      .ok [("// " ++ strCmd (.call "f" 2)) :: call_asm_code 0 "f" 2,
           ("// " ++ strCmd (.function "f" 3)) :: function_asm_code "f" 3,
           ("// " ++ strCmd (.push .constant 7 "f")) ::
             (["@" ++ Nat.repr 7, "D=A"] ++ PUSH_D),
           ("// " ++ strCmd .ret) :: return_asm_code] ∧
    (c1_instrs 2 3 7).map printInstr =
      call_asm_code 0 "f" 2 ++ function_asm_code "f" 3 ++
      (["@" ++ Nat.repr 7, "D=A"] ++ PUSH_D) ++ return_asm_code ∧
    assemble (c1_instrs 2 3 7) = some (c1_resolved 2 3 7) ∧
    (run (c1_resolved 2 3 7) (103 + 2 * 3)
      ⟨0, 0, 0, fun z => if z = 0 then 300 else if z = 1 then 1000
        else if z = 2 then 2000 else if z = 3 then 3000
        else if z = 4 then 4000 else 0⟩).pc = 42 ∧
    (run (c1_resolved 2 3 7) (103 + 2 * 3)
      ⟨0, 0, 0, fun z => if z = 0 then 300 else if z = 1 then 1000
        else if z = 2 then 2000 else if z = 3 then 3000
        else if z = 4 then 4000 else 0⟩).ram 0 = 300 - 2 + 1 ∧
    (run (c1_resolved 2 3 7) (103 + 2 * 3)
      ⟨0, 0, 0, fun z => if z = 0 then 300 else if z = 1 then 1000
        else if z = 2 then 2000 else if z = 3 then 3000
        else if z = 4 then 4000 else 0⟩).ram (300 - 2) = (7 : Int) ∧
    (run (c1_resolved 2 3 7) (103 + 2 * 3)
      ⟨0, 0, 0, fun z => if z = 0 then 300 else if z = 1 then 1000
        else if z = 2 then 2000 else if z = 3 then 3000
        else if z = 4 then 4000 else 0⟩).ram 1 = 1000 ∧
    (run (c1_resolved 2 3 7) (103 + 2 * 3)
      ⟨0, 0, 0, fun z => if z = 0 then 300 else if z = 1 then 1000
        else if z = 2 then 2000 else if z = 3 then 3000
        else if z = 4 then 4000 else 0⟩).ram 2 = 2000 ∧
    (run (c1_resolved 2 3 7) (103 + 2 * 3)
      ⟨0, 0, 0, fun z => if z = 0 then 300 else if z = 1 then 1000
        else if z = 2 then 2000 else if z = 3 then 3000
        else if z = 4 then 4000 else 0⟩).ram 3 = 3000 ∧
    (run (c1_resolved 2 3 7) (103 + 2 * 3)
      ⟨0, 0, 0, fun z => if z = 0 then 300 else if z = 1 then 1000
        else if z = 2 then 2000 else if z = 3 then 3000
        else if z = 4 then 4000 else 0⟩).ram 4 = 4000 :=
  c1_call_return_roundtrip 2 3 7 300 1000 2000 3000 4000 0 0
    (fun z => if z = 0 then 300 else if z = 1 then 1000
      else if z = 2 then 2000 else if z = 3 then 3000
      else if z = 4 then 4000 else 0)
    (by decide) (by decide) (by decide) (by decide) (by decide) (by decide)
    (by decide) (by decide) (by decide) (by decide) (by decide) (by decide)
    (by decide) (by decide) (by decide) (by decide)

end VM
